import Mathlib

/-!
Verification of the go-pm work-item lifecycle engine (pkg/pm).

The Go source is shallowly embedded: strings are `List Char`, Go `int` /
`time.Duration` values are `Int`, fallible operations return `Except`.
Document contents are embedded verbatim as character lists; the regex-based
metadata codec of `filesystem.go` is implemented character by character,
following the exact semantics of the Go regular expressions used there
(Go `\s` = `[\t\n\f\r ]`, `\w` = `[0-9A-Za-zA_]`, `\d` = `[0-9]`,
leftmost-first matching, `.` does not match newline).
-/

namespace GoPm

/-- Character strings, modelled as lists of characters. -/
abbrev Str := List Char

/-! ## Enumerations (types.go): `ItemStatus` and `WorkPhase` are string types. -/

def StatusProposed : Str := "PROPOSED".toList
def StatusInProgressDiscovery : Str := "IN_PROGRESS_DISCOVERY".toList
def StatusInProgressPlanning : Str := "IN_PROGRESS_PLANNING".toList
def StatusInProgressExecution : Str := "IN_PROGRESS_EXECUTION".toList
def StatusInProgressCleanup : Str := "IN_PROGRESS_CLEANUP".toList
def StatusInProgressReview : Str := "IN_PROGRESS_REVIEW".toList
def StatusCompleted : Str := "COMPLETED".toList

def PhaseDiscovery : Str := "discovery".toList
def PhasePlanning : Str := "planning".toList
def PhaseExecution : Str := "execution".toList
def PhaseCleanup : Str := "cleanup".toList

/-- `Task` (types.go): a phase-specific task parsed from a checkbox line. -/
structure Task where
  description : Str
  completed : Bool
  phase : Str
  assignedTo : Str
deriving Repr, DecidableEq

/-- `WorkItem` (types.go): the parsed in-memory representation of a work item.
`createdAt`/`updatedAt` are file timestamps, modelled as integers
(nanoseconds); `0` is the zero time. -/
def TypeFeature : Str := "feature".toList
def TypeBug : Str := "bug".toList
def TypeExperiment : Str := "experiment".toList

structure WorkItem where
  name : Str := []
  title : Str := []
  type : Str := []
  status : Str := []
  phase : Str := []
  progress : Int := 0
  assignedTo : Str := []
  path : Str := []
  tasks : List Task := []
  createdAt : Int := 0
  updatedAt : Int := 0
deriving Repr, DecidableEq

/-- Error values returned by the service (types.go): `ValidationError`,
`PhaseError`, and `WorkItemError` (the latter with its message flattened). -/
inductive PMError where
  | validationError (field value message : Str)
  | phaseError (workItem currentPhase targetPhase reason : Str)
  | workItemError (op name message : Str)
deriving Repr, DecidableEq

def PMError.isPhaseError : PMError → Bool
  | .phaseError _ _ _ _ => true
  | _ => false

def PMError.isValidationError : PMError → Bool
  | .validationError _ _ _ => true
  | _ => false

/-! ## Phase state machine (workitem.go, `getNextPhase`, lines 717–739). -/

/-- `getNextPhase` (workitem.go 717–739): the next (phase, status) pair,
switching on the current status only. -/
def getNextPhase (currentPhase : Str) (currentStatus : Str) :
    Except PMError (Str × Str) :=
  if currentStatus = StatusProposed then
    .ok (PhaseDiscovery, StatusInProgressDiscovery)
  else if currentStatus = StatusInProgressDiscovery then
    .ok (PhasePlanning, StatusInProgressPlanning)
  else if currentStatus = StatusInProgressPlanning then
    .ok (PhaseExecution, StatusInProgressExecution)
  else if currentStatus = StatusInProgressExecution then
    .ok (PhaseCleanup, StatusInProgressCleanup)
  else if currentStatus = StatusInProgressCleanup then
    .ok (PhaseCleanup, StatusInProgressReview)
  else if currentStatus = StatusInProgressReview then
    .ok (PhaseCleanup, StatusCompleted)
  else
    .error (.phaseError [] currentPhase []
      "cannot advance from current status".toList)

/-- `validatePhaseTasksCompleted` (workitem.go 557–585): gating check.
Skipped for PROPOSED; otherwise fails with a `PhaseError` at the first
task of the item's current phase that is not completed. -/
def validatePhaseTasksCompleted (item : WorkItem) : Except PMError Unit :=
  if item.status = StatusProposed then
    .ok ()
  else
    let phaseTasks := item.tasks.filter (fun t => t.phase = item.phase)
    match phaseTasks.find? (fun t => ¬ t.completed) with
    | some t =>
        .error (.phaseError item.name item.phase []
          ("task '".toList ++ t.description ++ "' is not completed".toList))
    | none => .ok ()

/-- `AdvancePhase` (workitem.go 476–535), at the level of an already-parsed
item: the gating check followed by the state-machine step.  `.ok (p, s)`
means the service proceeds to persist the transition by calling
`UpdatePhaseAndStatus` with `(p, s)`; `.error e` means it returns `e`
before any write. -/
def AdvancePhase (item : WorkItem) : Except PMError (Str × Str) :=
  match validatePhaseTasksCompleted item with
  | .error e => .error e
  | .ok () => getNextPhase item.phase item.status

/-! ## Progress metrics (instructions.go, `ProgressTracker`). -/

/-- `PhaseProgress` (types.go). Durations are integers (nanoseconds). -/
structure PhaseProgress where
  phase : Str
  totalTasks : Int
  completedTasks : Int
  progressPercent : Int
  timeSpent : Int
deriving Repr, DecidableEq

/-- `WorkItemMetrics` (types.go). -/
structure WorkItemMetrics where
  name : Str
  totalTasks : Int
  completedTasks : Int
  overallProgress : Int
  phaseProgress : List PhaseProgress
  totalTimeSpent : Int
  createdAt : Int
  updatedAt : Int
deriving Repr, DecidableEq

/-- `calculateTimeSpentInPhase` (instructions.go): heuristic estimate,
`(now − createdAt) / (phaseIndex + 1)`.  `now` stands for `time.Now()`.
Go `time.Duration` division truncates toward zero (`Int.tdiv`). -/
def calculateTimeSpentInPhase (now : Int) (item : WorkItem) (phase : Str) : Int :=
  if item.createdAt = 0 then 0
  else
    let age := now - item.createdAt
    let phaseIndex : Int :=
      if phase = PhaseDiscovery then 0
      else if phase = PhasePlanning then 1
      else if phase = PhaseExecution then 2
      else if phase = PhaseCleanup then 3
      else 0
    Int.tdiv age (phaseIndex + 1)

/-- `CalculatePhaseProgress` (instructions.go 49–76). -/
def CalculatePhaseProgress (now : Int) (item : WorkItem) (phase : Str) :
    PhaseProgress :=
  let phaseTasks := item.tasks.filter (fun t => t.phase = phase)
  let completed := (phaseTasks.filter (fun t => t.completed)).length
  let progressPercent : Int :=
    if phaseTasks.length > 0 then (completed * 100) / phaseTasks.length else 0
  { phase := phase
    totalTasks := phaseTasks.length
    completedTasks := completed
    progressPercent := progressPercent
    timeSpent := calculateTimeSpentInPhase now item phase }

/-- `CalculateWorkItemMetrics` (instructions.go 80–115). -/
def CalculateWorkItemMetrics (now : Int) (item : WorkItem) : WorkItemMetrics :=
  let totalTasks := item.tasks.length
  let completedTasks := (item.tasks.filter (fun t => t.completed)).length
  let overallProgress : Int :=
    if totalTasks > 0 then (completedTasks * 100) / totalTasks else 0
  let phaseProgress :=
    [PhaseDiscovery, PhasePlanning, PhaseExecution, PhaseCleanup].map
      (fun p => CalculatePhaseProgress now item p)
  { name := item.name
    totalTasks := totalTasks
    completedTasks := completedTasks
    overallProgress := overallProgress
    phaseProgress := phaseProgress
    totalTimeSpent := (phaseProgress.map (fun pp => pp.timeSpent)).sum
    createdAt := item.createdAt
    updatedAt := item.updatedAt }

/-! ## The markdown metadata codec (filesystem.go).

Character classes of the Go regular expressions (ASCII, as in Go's
regexp package when no Unicode flags are used). -/

/-- Go regexp `\s` = `[\t\n\f\r ]`. -/
def isGoSpace (c : Char) : Bool :=
  c = ' ' ∨ c = '\t' ∨ c = '\n' ∨ c = '\x0c' ∨ c = '\r'

/-- Go regexp `\w` = `[0-9A-Za-zA_]`. -/
def isWordChar (c : Char) : Bool :=
  ('0' ≤ c ∧ c ≤ '9') ∨ ('a' ≤ c ∧ c ≤ 'z') ∨ ('A' ≤ c ∧ c ≤ 'Z') ∨ c = '_'

/-- Go regexp `\d` = `[0-9]`. -/
def isDigitChar (c : Char) : Bool := '0' ≤ c ∧ c ≤ '9'

/-- `strings.TrimSpace` cutset, restricted to ASCII: `\t\n\v\f\r ` . -/
def isTrimSpace (c : Char) : Bool :=
  c = ' ' ∨ c = '\t' ∨ c = '\n' ∨ c = '\x0b' ∨ c = '\x0c' ∨ c = '\r'

/-- `strings.TrimSpace` (ASCII whitespace). -/
def trimSpace (s : Str) : Str :=
  ((s.dropWhile isTrimSpace).reverse.dropWhile isTrimSpace).reverse

/-- `strings.ToLower` (ASCII case folding, as used by `(?i)` on the
labels that occur here). -/
def toLowerStr (s : Str) : Str := s.map Char.toLower

/-- Decimal value of a digit run (the successful case of `strconv.Atoi`). -/
def natOfDigits (s : Str) : Nat :=
  s.foldl (fun n c => n * 10 + (c.toNat - '0'.toNat)) 0

/-- Rendering of a Go `int` with `%d`. -/
def intToStr (n : Int) : Str := (toString n).toList

/-- Match a literal (the pattern `pat`) at the head of `s`, case-insensitively
when `ci` is set.  Returns the consumed source text and the remainder. -/
def matchLit (ci : Bool) : Str → Str → Option (Str × Str)
  | [], s => some ([], s)
  | _ :: _, [] => none
  | p :: ps, c :: cs =>
      if (if ci then c.toLower = p.toLower else c = p) then
        match matchLit ci ps cs with
        | some (got, rest) => some (c :: got, rest)
        | none => none
      else none

/-- The result of matching one of the codec's metadata patterns at the head
of a suffix of the document: `g1` is the text of capture group 1 (kept by
the `${1}` replacement templates), `tok` the text of the replaced capture
group, `post` any matched text after it (the `%` of the progress pattern).
The whole matched text is `g1 ++ tok ++ post`. -/
structure RegexHit where
  g1 : Str
  tok : Str
  post : Str
deriving Repr, DecidableEq

def RegexHit.len (h : RegexHit) : Nat :=
  h.g1.length + h.tok.length + h.post.length

def RegexHit.text (h : RegexHit) : Str := h.g1 ++ h.tok ++ h.post

/-- Match `##` `\s*` `label` `\s*` at the head of `s`.  Returns the consumed
text and the remainder.  The greedy `\s*` runs need no backtracking because
the label and the token classes that follow are disjoint from `\s`. -/
def matchLabelPrefix (ci : Bool) (label : Str) (s : Str) : Option (Str × Str) :=
  match matchLit ci "##".toList s with
  | none => none
  | some (hsh, r1) =>
    let (w1, r2) := r1.span isGoSpace
    match matchLit ci label r2 with
    | none => none
    | some (lab, r3) =>
      let (w2, r4) := r3.span isGoSpace
      some (hsh ++ w1 ++ lab ++ w2, r4)

/-- Match `(##\s*<label>\s*)(\w+)` at the head of `s` (the shape of the
status and phase patterns; `(\w+(?:_\w+)*)` is extensionally `(\w+)`
because `\w` already contains `_`). -/
def matchWordTokLabel (ci : Bool) (label : Str) (s : Str) : Option RegexHit :=
  match matchLabelPrefix ci label s with
  | none => none
  | some (g1, r) =>
    let (tok, _) := r.span isWordChar
    if tok.isEmpty then none else some ⟨g1, tok, []⟩

/-- Match `(##\s*Progress:\s*)(\d+)%` at the head of `s`. -/
def matchProgressAt (ci : Bool) (s : Str) : Option RegexHit :=
  match matchLabelPrefix ci "Progress:".toList s with
  | none => none
  | some (g1, r) =>
    let (ds, r2) := r.span isDigitChar
    if ds.isEmpty then none
    else
      match r2 with
      | '%' :: _ => some ⟨g1, ds, ['%']⟩
      | _ => none

/-- Split a Go-space run at its last non-newline character:
`w = pre ++ [c] ++ nls` with `c ≠ '\n'` and `nls` all newlines. -/
def lastNonNl (w : Str) : Option (Str × Char) :=
  match w.reverse.dropWhile (fun c => c = '\n') with
  | [] => none
  | c :: pre => some (pre.reverse, c)

/-- Match `(##\s*Assigned\s+To:\s*)(.+)` at the head of `s`.  The final
`\s*(.+)` pair follows Go's leftmost-first semantics: the greedy `\s*` may
give back one trailing non-newline whitespace character so that `.+`
(which cannot match a newline) is nonempty. -/
def matchAssigneeAt (ci : Bool) (s : Str) : Option RegexHit :=
  match matchLit ci "##".toList s with
  | none => none
  | some (hsh, r1) =>
    let (w1, r2) := r1.span isGoSpace
    match matchLit ci "Assigned".toList r2 with
    | none => none
    | some (lab1, r3) =>
      let (w2, r4) := r3.span isGoSpace
      if w2.isEmpty then none
      else
        match matchLit ci "To:".toList r4 with
        | none => none
        | some (lab2, r5) =>
          let (w3, r6) := r5.span isGoSpace
          let pre := hsh ++ w1 ++ lab1 ++ w2 ++ lab2
          match r6 with
          | c :: _ =>
            if c ≠ '\n' then
              some ⟨pre ++ w3, r6.takeWhile (fun d => d ≠ '\n'), []⟩
            else
              match lastNonNl w3 with
              | some (w3pre, d) => some ⟨pre ++ w3pre, [d], []⟩
              | none => none
          | [] =>
            match lastNonNl w3 with
            | some (w3pre, d) => some ⟨pre ++ w3pre, [d], []⟩
            | none => none

/-- Is there a match of `m` at some position of `s`
(`Regexp.MatchString`)? -/
def hasMatch (m : Str → Option RegexHit) (s : Str) : Bool :=
  s.tails.any (fun t => (m t).isSome)

/-- `Regexp.ReplaceAllString`, fuelled for structural recursion: replace
every successive leftmost match, resuming after the end of each match.
None of the codec's patterns can match the empty string, so each match
consumes at least one character and the text length bounds the number of
steps. -/
def replaceAllFuel (m : Str → Option RegexHit) (repl : RegexHit → Str) :
    Nat → Str → Str
  | _, [] => []
  | 0, s => s
  | fuel + 1, c :: cs =>
    match m (c :: cs) with
    | some h => repl h ++ replaceAllFuel m repl fuel (cs.drop (h.len - 1))
    | none => c :: replaceAllFuel m repl fuel cs

/-- `Regexp.ReplaceAllString`. -/
def replaceAll (m : Str → Option RegexHit) (repl : RegexHit → Str)
    (s : Str) : Str :=
  replaceAllFuel m repl s.length s

/-- `strings.Split(content, "\n")`. -/
def splitOnNl : Str → List Str
  | [] => [[]]
  | c :: cs =>
    if c = '\n' then [] :: splitOnNl cs
    else
      match splitOnNl cs with
      | l :: ls => (c :: l) :: ls
      | [] => [[c]]

/-- `strings.Join(lines, "\n")`. -/
def joinNl : List Str → Str
  | [] => []
  | [l] => l
  | l :: ls => l ++ '\n' :: joinNl ls

/-- `bufio.ScanLines` drops one `\r` at the end of a line. -/
def dropCR (l : Str) : Str :=
  if l.getLast? = some '\r' then l.dropLast else l

/-- The lines delivered by a `bufio.Scanner` with `ScanLines`: split at
`\n`, no final empty token after a terminating newline, one trailing `\r`
stripped per line. -/
def scanLines (content : Str) : List Str :=
  if content = [] then []
  else
    (if content.getLast? = some '\n'
      then (splitOnNl content).dropLast
      else splitOnNl content).map dropCR

/-- The status messages produced by `PredictCompletionTime`
(instructions.go 176–204), one constructor per `return` site; the
extrapolated remaining duration is carried by its constructor. -/
inductive PredictionMsg where
  | alreadyCompleted
  | allTasksCompleted
  | basedOnCurrentProgressRate (remaining : Int)
  | insufficientData
deriving Repr, DecidableEq

/-- Two's-complement wrap-around of Go's 64-bit `int` / `time.Duration`
arithmetic: the value congruent modulo `2^64` lying in
`[-2^63, 2^63)`. -/
def wrap64 (x : Int) : Int := (x + 2 ^ 63) % 2 ^ 64 - 2 ^ 63

/-- `PredictCompletionTime` (instructions.go 176–204).  `now` stands for
`time.Now()`; the zero `time.Time{}` is `0`.  Go computes in 64-bit
two's-complement (`int` for the task counts, `time.Duration` for the
times), so the remaining-task subtraction, the running time sum, the
`avgTimePerPercent * remainingPercent` product and the final `Add` all
wrap (`wrap64`); the division truncates toward zero (`Int.tdiv`) and
cannot overflow since the extrapolation branch has
`0 < overallProgress < 100`, which also keeps `100 - overallProgress`
exact. -/
def PredictCompletionTime (now : Int) (m : WorkItemMetrics) :
    Int × PredictionMsg :=
  if m.overallProgress ≥ 100 then
    (m.updatedAt, .alreadyCompleted)
  else
    let remainingTasks := wrap64 (m.totalTasks - m.completedTasks)
    if remainingTasks ≤ 0 then
      (m.updatedAt, .allTasksCompleted)
    else
      let totalActualTime :=
        (m.phaseProgress.map (fun pp => pp.timeSpent)).foldl
          (fun a b => wrap64 (a + b)) 0
      if totalActualTime > 0 ∧ m.overallProgress > 0 then
        let avgTimePerPercent := Int.tdiv totalActualTime m.overallProgress
        let remainingPercent := 100 - m.overallProgress
        let estimatedRemaining := wrap64 (avgTimePerPercent * remainingPercent)
        (wrap64 (now + estimatedRemaining),
         .basedOnCurrentProgressRate estimatedRemaining)
      else
        (0, .insufficientData)

/-! ## StatusUpdater (filesystem.go 306–475): the four single-field
rewrites, the combined phase+status rewrite, and the checkbox flip. -/

namespace StatusUpdater

/-- `StatusUpdater.UpdateStatus` (filesystem.go 320–341): replace the token
of every occurrence of `(?i)(##\s*Status:\s*)(\w+)` with the new status;
with no occurrence, insert the element `"\n## Status: <s>"` after the first
element of `strings.Split(content, "\n")` provided that element starts
with `#`; otherwise leave the content unchanged. -/
def UpdateStatus (content : Str) (newStatus : Str) : Str :=
  let m := matchWordTokLabel true "Status:".toList
  if hasMatch m content then
    replaceAll m (fun h => h.g1 ++ newStatus) content
  else
    match splitOnNl content with
    | [] => content
    | l0 :: rest =>
      if l0.head? = some '#' then
        joinNl (l0 :: ('\n' :: ("## Status: ".toList ++ newStatus)) :: rest)
      else content

/-- `StatusUpdater.UpdateProgress` (filesystem.go 344–364): replace the
digits of every occurrence of `(?i)(##\s*Progress:\s*)(\d+)%`; with no
occurrence, append `"\n\n## Progress: <n>%"` after every occurrence of
`(?i)(##\s*Status:\s*\w+)`; with neither, leave the content unchanged. -/
def UpdateProgress (content : Str) (progress : Int) : Str :=
  let pm := matchProgressAt true
  if hasMatch pm content then
    replaceAll pm (fun h => h.g1 ++ intToStr progress ++ ['%']) content
  else
    let sm := matchWordTokLabel true "Status:".toList
    if hasMatch sm content then
      replaceAll sm
        (fun h => h.text ++ "\n\n## Progress: ".toList ++ intToStr progress ++ ['%'])
        content
    else content

/-- `StatusUpdater.UpdateAssignee` (filesystem.go 367–387): replace the
text of every occurrence of `(?i)(##\s*Assigned\s+To:\s*)(.+)`; with no
occurrence, append `"\n\n## Assigned To: <a>"` after every occurrence of
`(?i)(##\s*Phase:\s*\w+)`; with neither, leave the content unchanged. -/
def UpdateAssignee (content : Str) (assignee : Str) : Str :=
  let am := matchAssigneeAt true
  if hasMatch am content then
    replaceAll am (fun h => h.g1 ++ assignee) content
  else
    let phm := matchWordTokLabel true "Phase:".toList
    if hasMatch phm content then
      replaceAll phm
        (fun h => h.text ++ "\n\n## Assigned To: ".toList ++ assignee) content
    else content

/-- The title pattern `(^# .+\n)` of `UpdatePhase` / `UpdatePhaseAndStatus`:
without `(?m)`, `^` only matches at the start of the text, so there is at
most one match; the matched text (group 1) includes the newline. -/
def matchTitleLine (s : Str) : Option (Str × Str) :=
  match s with
  | '#' :: ' ' :: r =>
    let tok := r.takeWhile (fun c => c ≠ '\n')
    if tok.isEmpty then none
    else
      match r.drop tok.length with
      | '\n' :: rest => some ('#' :: ' ' :: (tok ++ ['\n']), rest)
      | _ => none
  | _ => none

/-- `StatusUpdater.UpdatePhase` (filesystem.go 426–446): replace the token
of every occurrence of `(?i)(##\s*Phase:\s*)(\w+)`; with no occurrence and
a title line at the start of the text, rewrite it per the template
`${1}\n## Phase: <p>`; with neither, leave the content unchanged. -/
def UpdatePhase (content : Str) (phase : Str) : Str :=
  let phm := matchWordTokLabel true "Phase:".toList
  if hasMatch phm content then
    replaceAll phm (fun h => h.g1 ++ phase) content
  else
    match matchTitleLine content with
    | some (title, rest) => title ++ "\n## Phase: ".toList ++ phase ++ rest
    | none => content

/-- `StatusUpdater.UpdatePhaseAndStatus` (filesystem.go 390–423): the phase
rewrite of `UpdatePhase` followed by the status rewrite (same regex and
template as `UpdateStatus`, but the fallback appends a status line after
every occurrence of `(?i)(##\s*Phase:\s*\w+)` instead). -/
def UpdatePhaseAndStatus (content : Str) (phase status : Str) : Str :=
  let c1 := UpdatePhase content phase
  let sm := matchWordTokLabel true "Status:".toList
  if hasMatch sm c1 then
    replaceAll sm (fun h => h.g1 ++ status) c1
  else
    let phm := matchWordTokLabel true "Phase:".toList
    if hasMatch phm c1 then
      replaceAll phm (fun h => h.text ++ "\n\n## Status: ".toList ++ status) c1
    else c1

/-- The anchored line pattern `^\s*-\s*\[([ x])\]` of
`StatusUpdater.CompleteTask` and `TaskParser.ParseTaskList`: the checkbox
character of a task line, if any. -/
def lineTaskBox (line : Str) : Option Char :=
  match line.dropWhile isGoSpace with
  | dash :: r2 =>
    if dash = '-' then
      match r2.dropWhile isGoSpace with
      | o :: b :: cl :: _ =>
        if o = '[' ∧ cl = ']' then
          if b = ' ' ∨ b = 'x' then some b else none
        else none
      | _ => none
    else none
  | _ => none

/-- The anchored pattern `^\s*-\s*\[\s*\]`: length of the matched prefix,
if it matches. -/
def lineCompletePrefixLen (line : Str) : Option Nat :=
  match line.dropWhile isGoSpace with
  | dash :: r2 =>
    if dash = '-' then
      match r2.dropWhile isGoSpace with
      | o :: r4 =>
        if o = '[' then
          match r4.dropWhile isGoSpace with
          | cl :: _ =>
            if cl = ']' then
              some ((line.takeWhile isGoSpace).length + 1 +
                (r2.takeWhile isGoSpace).length + 1 +
                (r4.takeWhile isGoSpace).length + 1)
            else none
          | [] => none
        else none
      | [] => none
    else none
  | [] => none

/-- `completeRegex.ReplaceAllString(line, "- [x]")`: `^`-anchored, so at
most one match, at the start of the line. -/
def completeTaskLine (line : Str) : Str :=
  match lineCompletePrefixLen line with
  | some n => "- [x]".toList ++ line.drop n
  | none => line

/-- The loop of `StatusUpdater.CompleteTask` (filesystem.go 461–471):
walk the lines, counting task lines; rewrite the one whose count equals
`taskId` and stop there. -/
def completeTaskLoop : List Str → Int → List Str
  | [], _ => []
  | l :: ls, tid =>
    if (lineTaskBox l).isSome then
      if tid = 0 then completeTaskLine l :: ls
      else l :: completeTaskLoop ls (tid - 1)
    else l :: completeTaskLoop ls tid

/-- `StatusUpdater.CompleteTask` (filesystem.go 449–475). -/
def CompleteTask (content : Str) (taskId : Int) : Str :=
  joinNl (completeTaskLoop (splitOnNl content) taskId)

end StatusUpdater

/-- `TaskParser.ParseTaskList` (filesystem.go 491–511): (total, completed)
counts over all task lines of the document. -/
def ParseTaskList (content : Str) : Nat × Nat :=
  (scanLines content).foldl
    (fun acc l =>
      match StatusUpdater.lineTaskBox l with
      | some b => (acc.1 + 1, if b = 'x' then acc.2 + 1 else acc.2)
      | none => acc)
    (0, 0)

/-! ## WorkItemParser (filesystem.go 186–304). -/

/-- `FindStringSubmatch`: the leftmost match of `m` in `s`.  None of the
parser's unanchored patterns can match the empty suffix. -/
def findFirst? {α : Type} (m : Str → Option α) : Str → Option α
  | [] => none
  | c :: cs =>
    match m (c :: cs) with
    | some h => some h
    | none => findFirst? m cs

/-- Match `##\s+(\w+)\s+Phase` at the head of `s` (case-sensitive):
the phase-section heading pattern; returns the captured word. -/
def matchPhaseSectionAt (s : Str) : Option Str :=
  match matchLit false "##".toList s with
  | none => none
  | some (_, r1) =>
    let (w1, r2) := r1.span isGoSpace
    if w1.isEmpty then none
    else
      let (tok, r3) := r2.span isWordChar
      if tok.isEmpty then none
      else
        let (w2, r4) := r3.span isGoSpace
        if w2.isEmpty then none
        else
          match matchLit false "Phase".toList r4 with
          | some _ => some tok
          | none => none

/-- The trailing `\s*(.+)$` of the anchored line patterns, on the remainder
`r` of a line (which contains no newline): the greedy `\s*` backs off one
character when it would leave `.+` nothing to match. -/
def tailDotPlus (r : Str) : Option Str :=
  match r.dropWhile isGoSpace with
  | c :: cs => some (c :: cs)
  | [] =>
    match (r.takeWhile isGoSpace).reverse with
    | c :: _ => some [c]
    | [] => none

/-- The anchored title pattern `^#\s+(?:Feature|Bug|Experiment):\s*(.+)$`
(filesystem.go 216): returns the captured title text. -/
def matchTitleHeading (line : Str) : Option Str :=
  match line with
  | '#' :: r =>
    let (w1, r1) := r.span isGoSpace
    if w1.isEmpty then none
    else
      let afterLabel :=
        match matchLit false "Feature:".toList r1 with
        | some (_, rest) => some rest
        | none =>
          match matchLit false "Bug:".toList r1 with
          | some (_, rest) => some rest
          | none =>
            match matchLit false "Experiment:".toList r1 with
            | some (_, rest) => some rest
            | none => none
      match afterLabel with
      | some rest => tailDotPlus rest
      | none => none
  | _ => none

/-- The anchored task pattern `^\s*-\s*\[([ x])\]\s*(.+)$`
(filesystem.go 221): checkbox character and description text. -/
def matchTaskLine (line : Str) : Option (Char × Str) :=
  match line.dropWhile isGoSpace with
  | dash :: r2 =>
    if dash = '-' then
      match r2.dropWhile isGoSpace with
      | o :: b :: cl :: r4 =>
        if o = '[' ∧ cl = ']' then
          if b = ' ' ∨ b = 'x' then
            match tailDotPlus r4 with
            | some d => some (b, d)
            | none => none
          else none
        else none
      | _ => none
    else none
  | _ => none

/-- Atoi's int64 bound: setting `Progress` succeeds only when the digit
run fits a 64-bit int (filesystem.go 245). -/
def maxInt64 : Nat := 9223372036854775807

/-- One iteration of the scanner loop of `ParseWorkItem`
(filesystem.go 225–282), in the source's order: title, status, phase,
progress, assignee, phase-section heading, task.  The fold state is the
item under construction together with `currentPhase`. -/
def parseLine (st : WorkItem × Str) (line : Str) : WorkItem × Str :=
  let item := st.1
  let currentPhase := st.2
  let item :=
    match matchTitleHeading line with
    | some t => { item with title := trimSpace t }
    | none => item
  let item :=
    match findFirst? (matchWordTokLabel false "Status:".toList) line with
    | some h => { item with status := trimSpace h.tok }
    | none => item
  let item :=
    match findFirst? (matchWordTokLabel false "Phase:".toList) line with
    | some h => { item with phase := trimSpace h.tok }
    | none => item
  let item :=
    match findFirst? (matchProgressAt false) line with
    | some h =>
      if natOfDigits h.tok ≤ maxInt64 then
        { item with progress := (natOfDigits h.tok : Int) }
      else item
    | none => item
  let item :=
    match findFirst? (matchAssigneeAt false) line with
    | some h => { item with assignedTo := trimSpace h.tok }
    | none => item
  let currentPhase :=
    match findFirst? matchPhaseSectionAt line with
    | some tok =>
      let p := toLowerStr tok
      if p = PhaseDiscovery then PhaseDiscovery
      else if p = PhasePlanning then PhasePlanning
      else if p = PhaseExecution then PhaseExecution
      else if p = PhaseCleanup then PhaseCleanup
      else currentPhase
    | none => currentPhase
  let item :=
    match matchTaskLine line with
    | some (b, d) =>
      { item with
          tasks := item.tasks ++
            [{ description := trimSpace d
               completed := b = 'x'
               phase := currentPhase
               assignedTo := item.assignedTo }] }
    | none => item
  (item, currentPhase)

/-- `WorkItemParser.ParseWorkItem` (filesystem.go 201–304), given the
document contents.  Reading the file is the only fallible step and is the
caller's concern; `CreatedAt`/`UpdatedAt` come from `os.Stat` on the
backing file, not from the contents, and stay at their zero value here. -/
def ParseWorkItem (name path content : Str) : WorkItem :=
  let init : WorkItem :=
    { name := name, path := path, status := "UNKNOWN".toList,
      phase := PhaseDiscovery }
  let item := ((scanLines content).foldl parseLine (init, PhaseDiscovery)).1
  if "feature-".toList.isPrefixOf name then { item with type := TypeFeature }
  else if "bug-".toList.isPrefixOf name then { item with type := TypeBug }
  else if "experiment-".toList.isPrefixOf name then
    { item with type := TypeExperiment }
  else item

/-- `bufio.MaxScanTokenSize`: the default `bufio.Scanner` buffer limit.
The scanner fails with `bufio.ErrTooLong` as soon as a `'\n'`-free run of
the input (including any `'\r'`, which `ScanLines` only strips after the
terminator is found) reaches this many bytes, because the full 64 KiB
buffer then holds no line terminator. -/
def maxScanTokenSize : Nat := 65536

/-- `ParseWorkItem` together with its read and scan steps
(filesystem.go 209–214 and 284–286): a read error from the `FileSystem`
collaborator is returned verbatim; the default `bufio.Scanner` over the
contents errors with `bufio.ErrTooLong` when some line reaches
`bufio.MaxScanTokenSize` bytes, and `ParseWorkItem` returns
`scanner.Err()` after the scan loop, so an over-long line fails the parse
even of a readable document. -/
def ParseWorkItemRead (name path : Str) (readResult : Except Str Str) :
    Except Str WorkItem :=
  match readResult with
  | .error e => .error e
  | .ok content =>
    if (splitOnNl content).all (fun l => l.length < maxScanTokenSize) then
      .ok (ParseWorkItem name path content)
    else .error "bufio.Scanner: token too long".toList

/-- A readable document consisting of a single `'\n'`-free line of exactly
`bufio.MaxScanTokenSize` bytes: the scanner refuses it. -/
def longLineDoc : Str := List.replicate maxScanTokenSize 'a'

/-! ## WorkItemService (workitem.go): `CompleteTask` and
`updateProgressFromTasks`, at the level of the document contents. -/

namespace WorkItemService

/-- The loop of `WorkItemService.CompleteTask` (workitem.go 361–372):
global index (into `item.Tasks`) of the `taskId`-th task of the given
phase, `-1` when there is none. -/
def findGlobalTaskId : List Task → Str → Int → Int → Int
  | [], _, _, _ => -1
  | t :: ts, phase, tid, i =>
    if t.phase = phase then
      if tid = 0 then i else findGlobalTaskId ts phase (tid - 1) (i + 1)
    else findGlobalTaskId ts phase tid (i + 1)

/-- `updateProgressFromTasks` (workitem.go 538–554): recompute progress
from the task counts and rewrite the progress line.  With in-memory
contents the parse step cannot fail, so the non-fatal warning branch of
the caller is empty. -/
def updateProgressFromTasks (content : Str) : Str :=
  let p := ParseTaskList content
  let progress : Int := if p.1 > 0 then ((p.2 * 100) / p.1 : Nat) else 0
  StatusUpdater.UpdateProgress content progress

/-- `WorkItemService.CompleteTask` (workitem.go 336–390), given the
document contents: parse, validate the phase-local index, translate it to
the global index, flip the checkbox, then recompute and persist progress.
`.ok` carries the contents written back. -/
def CompleteTask (name path content : Str) (taskId : Int) :
    Except PMError Str :=
  let item := ParseWorkItem name path content
  let phaseTasks := item.tasks.filter (fun t => t.phase = item.phase)
  if taskId < 0 ∨ taskId ≥ (phaseTasks.length : Int) then
    .error (.validationError "taskId".toList (intToStr taskId)
      "invalid task ID for current phase".toList)
  else
    let globalTaskId := findGlobalTaskId item.tasks item.phase taskId 0
    if globalTaskId = -1 then
      .error (.validationError "taskId".toList (intToStr taskId)
        "could not find task".toList)
    else
      let content1 := StatusUpdater.CompleteTask content globalTaskId
      .ok (updateProgressFromTasks content1)

end WorkItemService

/-! ## ArchiveWorkItem (workitem.go 194–218), at the level of the two
work-item stores. -/

/-- A directory: an association list file name → contents. -/
abbrev Dir := List (Str × Str)

/-- The two stores: backlog and completed, each an association list
work-item directory name → directory contents. -/
structure FSState where
  backlog : List (Str × Dir)
  completed : List (Str × Dir)
deriving Repr, DecidableEq

/-- Look a name up in a store (`DirectoryExists` + contents). -/
def storeGet : List (Str × Dir) → Str → Option Dir
  | [], _ => none
  | p :: ps, k => if p.1 = k then some p.2 else storeGet ps k

/-- Write a file into a directory (create or overwrite). -/
def setFile (d : Dir) (fname content : Str) : Dir :=
  if d.any (fun p => p.1 = fname) then
    d.map (fun p => if p.1 = fname then (p.1, content) else p)
  else d ++ [(fname, content)]

/-- Bind a directory name in a store (create or replace). -/
def setStore (s : List (Str × Dir)) (k : Str) (d : Dir) : List (Str × Dir) :=
  if s.any (fun p => p.1 = k) then
    s.map (fun p => if p.1 = k then (p.1, d) else p)
  else s ++ [(k, d)]

/-- `PostmortemGenerator.GeneratePostmortem`'s template
(filesystem.go 527–557); `today` is `time.Now().Format("2006-01-02")`. -/
def postmortemTemplate (name today : Str) : Str :=
  "# Postmortem: ".toList ++ name ++
  "\n\n## Completion Date\n".toList ++ today ++
  ("\n\n## Summary\n- [ ] What was accomplished?\n" ++
   "- [ ] Key challenges faced?\n- [ ] Lessons learned?\n\n## Metrics\n" ++
   "- Development time:\n- Lines of code added/modified:\n- Tests added:\n" ++
   "\n## What Went Well\n-\n\n## What Could Be Improved\n-\n\n" ++
   "## Follow-up Items\n- [ ] Documentation updates needed\n" ++
   "- [ ] Technical debt created\n" ++
   "- [ ] Future enhancements identified\n").toList

/-- `WorkItemService.ArchiveWorkItem` (workitem.go 194–218): not-found
check on the backlog directory, then (assuming the collaborator's
create-directory and move succeed, per the FileSystem contract) the whole
directory moves to the completed store and a postmortem is generated
best-effort: `pmFails` selects the collaborator outcome of the postmortem
write, whose failure is only logged.  The item's document is never read. -/
def ArchiveWorkItem (pmFails : Bool) (today : Str) (st : FSState)
    (name : Str) : Except PMError FSState :=
  match storeGet st.backlog name with
  | none =>
    .error (.workItemError "archive".toList name
      "work item not found in backlog".toList)
  | some d =>
    let moved : FSState :=
      { backlog := st.backlog.filter (fun p => ¬ p.1 = name)
        completed := setStore st.completed name d }
    if pmFails then .ok moved
    else
      .ok { moved with
              completed := setStore moved.completed name
                (setFile d "POSTMORTEM.md".toList
                  (postmortemTemplate name today)) }

/-- The (0-based) positions of the lines matched by the parser's task
pattern, used to state where `CompleteTask`'s index translation lands. -/
def taskIdxs : List Str → List Nat
  | [] => []
  | l :: ls =>
    if (matchTaskLine l).isSome then 0 :: (taskIdxs ls).map (· + 1)
    else (taskIdxs ls).map (· + 1)

/-- The (0-based) positions of the lines counted by the updater's checkbox
prefix pattern (`StatusUpdater.CompleteTask`'s loop). -/
def boxIdxs : List Str → List Nat
  | [] => []
  | l :: ls =>
    if (StatusUpdater.lineTaskBox l).isSome then 0 :: (boxIdxs ls).map (· + 1)
    else (boxIdxs ls).map (· + 1)

/-- C3's counterexample document: a description-less checkbox line `- [ ]`
precedes the only real task of the (default) discovery phase. -/
def doc3 : Str :=
  "# Feature: T\n## Phase: discovery\n## Progress: 0%\n## Discovery Phase\n- [ ]\n- [ ] real task\n".toList

/-- The contents persisted by `CompleteTask doc3 0`: the bare checkbox is
the line that gets flipped, and progress counts it too. -/
def doc3out : Str :=
  "# Feature: T\n## Phase: discovery\n## Progress: 50%\n## Discovery Phase\n- [x]\n- [ ] real task\n".toList

/-- A well-formed document (every checkbox line is a full task line) for
exercising the index translation. -/
def doc3w : Str :=
  "# Feature: W\n## Phase: discovery\n## Progress: 0%\n## Discovery Phase\n- [ ] a\n- [x] b\n".toList

/-- The contents persisted by `CompleteTask doc3w 0`. -/
def doc3wOut : Str :=
  "# Feature: W\n## Phase: discovery\n## Progress: 100%\n## Discovery Phase\n- [x] a\n- [x] b\n".toList

/-- C7's counterexample document: its only task is already checked, and the
stored progress (0%) differs from the recomputed one (100%). -/
def doc7 : Str :=
  "# Feature: T\n## Phase: discovery\n## Progress: 0%\n## Discovery Phase\n- [x] done task\n".toList

/-- The contents persisted by `CompleteTask doc7 0`: only the progress line
differs from `doc7`. -/
def doc7out : Str :=
  "# Feature: T\n## Phase: discovery\n## Progress: 100%\n## Discovery Phase\n- [x] done task\n".toList

/-- A document whose stored progress already equals the recomputed value:
completing its already-checked task is the exact identity. -/
def doc7w : Str :=
  "# Feature: T\n## Phase: discovery\n## Progress: 100%\n## Discovery Phase\n- [x] done\n".toList

/-- The six advanceable statuses (all statuses except COMPLETED). -/
def advanceableStatuses : List Str :=
  [StatusProposed, StatusInProgressDiscovery, StatusInProgressPlanning,
   StatusInProgressExecution, StatusInProgressCleanup, StatusInProgressReview]

/-- A work item under way (status IN_PROGRESS_DISCOVERY) with an incomplete
discovery task: `AdvancePhase` is gated. -/
def gatedItem : WorkItem :=
  { name := "feature-x".toList
    status := StatusInProgressDiscovery
    phase := PhaseDiscovery
    tasks := [{ description := "task one".toList, completed := false,
                phase := PhaseDiscovery, assignedTo := [] }] }

/-- A PROPOSED work item with the same incomplete task: not gated. -/
def proposedItem : WorkItem :=
  { gatedItem with status := StatusProposed }

/-- Metrics of a work item with no tasks at all, as produced by
`CalculateWorkItemMetrics` on a task-free item with zero timestamps. -/
def zeroTaskMetrics : WorkItemMetrics :=
  { name := [], totalTasks := 0, completedTasks := 0, overallProgress := 0,
    phaseProgress := [], totalTimeSpent := 0, createdAt := 0, updatedAt := 5 }

/-- A one-item backlog whose document is still PROPOSED with unchecked
tasks. -/
def proposedBacklog : FSState :=
  { backlog := [("feature-x".toList,
      [("README.md".toList,
        "# Feature: x\n\n## Status: PROPOSED\n- [ ] task\n".toList)])]
    completed := [] }

/-- A document whose body prose itself contains the status pattern. -/
def proseDoc : Str :=
  "# Feature: x\n\n## Status: PROPOSED\n\nSee ## Status: OLD for history.\n".toList

/-- A document with no status line whose first heading is not on the first
line. -/
def lateHeadingDoc : Str := "intro text\n# Title\nbody\n".toList

/-! ## Helper lemmas. -/

theorem validate_error_isPhaseError {item : WorkItem} {e : PMError}
    (h : validatePhaseTasksCompleted item = .error e) :
    e.isPhaseError = true := by
  unfold validatePhaseTasksCompleted at h
  split at h
  · exact absurd h (by simp)
  · dsimp only at h
    split at h
    · cases h; rfl
    · exact absurd h (by simp)

theorem getNextPhase_error_isPhaseError {ph st : Str} {e : PMError}
    (h : getNextPhase ph st = .error e) : e.isPhaseError = true := by
  unfold getNextPhase at h
  repeat' split at h
  all_goals (cases h; try rfl)



theorem getNextPhase_default {ph st : Str} (h : st ∉ advanceableStatuses) :
    getNextPhase ph st =
      .error (.phaseError [] ph [] "cannot advance from current status".toList) := by
  simp only [advanceableStatuses, List.mem_cons, List.mem_singleton, not_or] at h
  obtain ⟨h1, h2, h3, h4, h5, h6, -⟩ := h
  unfold getNextPhase
  simp [h1, h2, h3, h4, h5, h6]

/-! ## Structural lemmas about the matchers and `replaceAll`. -/

theorem RegexHit.text_length (h : RegexHit) : h.text.length = h.len := by
  simp only [RegexHit.text, RegexHit.len, List.length_append]

theorem matchLit_sound (ci : Bool) :
    ∀ (p s got rest : Str), matchLit ci p s = some (got, rest) →
      s = got ++ rest ∧ got.length = p.length := by
  intro p
  induction p with
  | nil =>
    intro s got rest h
    cases h
    exact ⟨rfl, rfl⟩
  | cons x xs ih =>
    intro s got rest h
    cases s with
    | nil => cases h
    | cons c cs =>
      unfold matchLit at h
      by_cases hc : (if ci then c.toLower = x.toLower else c = x)
      · rw [if_pos hc] at h
        cases hrec : matchLit ci xs cs with
        | none => rw [hrec] at h; cases h
        | some pr =>
          rw [hrec] at h
          cases h
          obtain ⟨h1, h2⟩ := ih cs pr.1 pr.2 hrec
          exact ⟨by rw [List.cons_append, ← h1], by simp [h2]⟩
      · rw [if_neg hc] at h
        cases h

theorem span_append (p : Char → Bool) (l : Str) :
    l = l.takeWhile p ++ l.dropWhile p := by
  rw [List.takeWhile_append_dropWhile]

theorem drop_len_of_text {s rest : Str} {h : RegexHit}
    (htext : s = h.text ++ rest) : s.drop h.len = rest := by
  rw [htext, ← RegexHit.text_length, List.drop_left]

theorem sound_of_text {s rest : Str} {h : RegexHit}
    (htext : s = h.text ++ rest) : s = h.text ++ s.drop h.len := by
  rw [drop_len_of_text htext]
  exact htext

theorem matchLabelPrefix_sound {ci : Bool} {label s g1 r : Str}
    (h : matchLabelPrefix ci label s = some (g1, r)) :
    s = g1 ++ r ∧ 2 ≤ g1.length := by
  unfold matchLabelPrefix at h
  cases h1 : matchLit ci "##".toList s with
  | none => rw [h1] at h; cases h
  | some pr1 =>
    obtain ⟨hsh, r1⟩ := pr1
    rw [h1] at h
    dsimp only at h
    rw [List.span_eq_take_drop] at h
    dsimp only at h
    cases h2 : matchLit ci label (r1.dropWhile isGoSpace) with
    | none => rw [h2] at h; cases h
    | some pr2 =>
      obtain ⟨lab, r3⟩ := pr2
      rw [h2] at h
      dsimp only at h
      rw [List.span_eq_take_drop] at h
      dsimp only at h
      cases h
      obtain ⟨hs1, hl1⟩ := matchLit_sound ci _ _ _ _ h1
      obtain ⟨hs2, -⟩ := matchLit_sound ci _ _ _ _ h2
      constructor
      · conv_lhs => rw [hs1, span_append isGoSpace r1, hs2,
          span_append isGoSpace r3]
        simp
      · simp [hl1]

theorem matchWordTokLabel_sound {ci : Bool} {label s : Str} {h : RegexHit}
    (hm : matchWordTokLabel ci label s = some h) :
    s = h.text ++ s.drop h.len ∧ 1 ≤ h.len ∧ h.post = [] := by
  unfold matchWordTokLabel at hm
  cases h1 : matchLabelPrefix ci label s with
  | none => rw [h1] at hm; cases hm
  | some pr =>
    obtain ⟨g1, r⟩ := pr
    rw [h1] at hm
    dsimp only at hm
    rw [List.span_eq_take_drop] at hm
    dsimp only at hm
    split at hm
    · cases hm
    · cases hm
      obtain ⟨hs, hg⟩ := matchLabelPrefix_sound h1
      have htext : s = (⟨g1, r.takeWhile isWordChar, []⟩ : RegexHit).text ++
          r.dropWhile isWordChar := by
        conv_lhs => rw [hs, span_append isWordChar r]
        simp [RegexHit.text]
      exact ⟨sound_of_text htext, by simp only [RegexHit.len]; simp; omega, rfl⟩

theorem matchProgressAt_sound {ci : Bool} {s : Str} {h : RegexHit}
    (hm : matchProgressAt ci s = some h) :
    s = h.text ++ s.drop h.len ∧ 1 ≤ h.len := by
  unfold matchProgressAt at hm
  cases h1 : matchLabelPrefix ci "Progress:".toList s with
  | none => rw [h1] at hm; cases hm
  | some pr =>
    obtain ⟨g1, r⟩ := pr
    rw [h1] at hm
    dsimp only at hm
    rw [List.span_eq_take_drop] at hm
    dsimp only at hm
    split at hm
    · cases hm
    · split at hm
      · next c cs heq =>
        cases hm
        obtain ⟨hs, hg⟩ := matchLabelPrefix_sound h1
        have htext : s = (⟨g1, r.takeWhile isDigitChar, ['%']⟩ : RegexHit).text
            ++ cs := by
          conv_lhs => rw [hs, span_append isDigitChar r, heq]
          simp [RegexHit.text]
        exact ⟨sound_of_text htext, by simp [RegexHit.len]⟩
      · cases hm

theorem lastNonNl_sound {w pre : Str} {c : Char}
    (h : lastNonNl w = some (pre, c)) :
    ∃ nls : Str, w = pre ++ c :: nls ∧ ∀ x ∈ nls, x = '\n' := by
  unfold lastNonNl at h
  cases hd : w.reverse.dropWhile (fun c => c = '\n') with
  | nil => rw [hd] at h; cases h
  | cons d ds =>
    rw [hd] at h
    cases h
    refine ⟨(w.reverse.takeWhile (fun c => c = '\n')).reverse, ?_, ?_⟩
    · conv_lhs => rw [← w.reverse_reverse,
        span_append (fun c => c = '\n') w.reverse, hd]
      simp
    · intro x hx
      have := List.mem_takeWhile_imp (List.mem_reverse.mp hx)
      simpa using this

theorem matchAssigneeAt_sound {ci : Bool} {s : Str} {h : RegexHit}
    (hm : matchAssigneeAt ci s = some h) :
    s = h.text ++ s.drop h.len ∧ 1 ≤ h.len ∧ h.post = [] := by
  unfold matchAssigneeAt at hm
  cases h1 : matchLit ci "##".toList s with
  | none => rw [h1] at hm; cases hm
  | some pr1 =>
    obtain ⟨hsh, r1⟩ := pr1
    rw [h1] at hm
    dsimp only at hm
    rw [List.span_eq_take_drop] at hm
    dsimp only at hm
    cases h2 : matchLit ci "Assigned".toList (r1.dropWhile isGoSpace) with
    | none => rw [h2] at hm; cases hm
    | some pr2 =>
      obtain ⟨lab1, r3⟩ := pr2
      rw [h2] at hm
      dsimp only at hm
      rw [List.span_eq_take_drop] at hm
      dsimp only at hm
      split at hm
      · cases hm
      · cases h3 : matchLit ci "To:".toList (r3.dropWhile isGoSpace) with
        | none => rw [h3] at hm; cases hm
        | some pr3 =>
          obtain ⟨lab2, r5⟩ := pr3
          rw [h3] at hm
          dsimp only at hm
          rw [List.span_eq_take_drop] at hm
          dsimp only at hm
          obtain ⟨hs1, hl1⟩ := matchLit_sound ci _ _ _ _ h1
          obtain ⟨hs2, -⟩ := matchLit_sound ci _ _ _ _ h2
          obtain ⟨hs3, -⟩ := matchLit_sound ci _ _ _ _ h3
          have hsfull : s = hsh ++ r1.takeWhile isGoSpace ++ lab1 ++
              r3.takeWhile isGoSpace ++ lab2 ++ (r5.takeWhile isGoSpace ++
                r5.dropWhile isGoSpace) := by
            conv_lhs => rw [hs1, span_append isGoSpace r1, hs2,
              span_append isGoSpace r3, hs3, span_append isGoSpace r5]
            simp
          have hlen1 : 2 ≤ hsh.length := by
            rw [hl1]
            decide
          split at hm
          · next c cs heq =>
            split at hm
            · cases hm
              obtain ⟨hs, hg⟩ := matchLit_sound ci _ _ _ _ h1
              have htext : s = (⟨hsh ++ r1.takeWhile isGoSpace ++ lab1 ++
                    r3.takeWhile isGoSpace ++ lab2 ++ r5.takeWhile isGoSpace,
                  (r5.dropWhile isGoSpace).takeWhile (fun d => ¬ d = '\n'),
                  []⟩ : RegexHit).text ++
                  (r5.dropWhile isGoSpace).dropWhile (fun d => ¬ d = '\n') := by
                conv_lhs => rw [hsfull,
                  span_append (fun d => ¬ d = '\n') (r5.dropWhile isGoSpace)]
                simp [RegexHit.text]
              refine ⟨sound_of_text htext, ?_, rfl⟩
              simp only [RegexHit.len]
              simp
              omega
            · cases hln : lastNonNl (r5.takeWhile isGoSpace) with
              | none => rw [hln] at hm; cases hm
              | some prl =>
                obtain ⟨w3pre, dch⟩ := prl
                rw [hln] at hm
                cases hm
                obtain ⟨nls, hw, hnls⟩ := lastNonNl_sound hln
                have htext : s = (⟨hsh ++ r1.takeWhile isGoSpace ++ lab1 ++
                      r3.takeWhile isGoSpace ++ lab2 ++ w3pre,
                    [dch], []⟩ : RegexHit).text ++
                    (nls ++ r5.dropWhile isGoSpace) := by
                  conv_lhs => rw [hsfull, hw]
                  simp [RegexHit.text]
                refine ⟨sound_of_text htext, ?_, rfl⟩
                simp [RegexHit.len]
          · cases hln : lastNonNl (r5.takeWhile isGoSpace) with
            | none => rw [hln] at hm; cases hm
            | some prl =>
              obtain ⟨w3pre, dch⟩ := prl
              rw [hln] at hm
              cases hm
              obtain ⟨nls, hw, hnls⟩ := lastNonNl_sound hln
              have htext : s = (⟨hsh ++ r1.takeWhile isGoSpace ++ lab1 ++
                    r3.takeWhile isGoSpace ++ lab2 ++ w3pre,
                  [dch], []⟩ : RegexHit).text ++
                  (nls ++ r5.dropWhile isGoSpace) := by
                conv_lhs => rw [hsfull, hw]
                simp [RegexHit.text]
              refine ⟨sound_of_text htext, ?_, rfl⟩
              simp [RegexHit.len]

theorem replaceAllFuel_irrel {m : Str → Option RegexHit}
    {repl : RegexHit → Str} :
    ∀ (f1 f2 : Nat) (s : Str), s.length ≤ f1 → s.length ≤ f2 →
      replaceAllFuel m repl f1 s = replaceAllFuel m repl f2 s := by
  intro f1
  induction f1 with
  | zero =>
    intro f2 s hs1 _
    have : s = [] := List.length_eq_zero.mp (by omega)
    subst this
    cases f2 <;> rfl
  | succ f1' ih =>
    intro f2 s hs1 hs2
    cases s with
    | nil => cases f2 <;> rfl
    | cons c cs =>
      cases f2 with
      | zero => simp at hs2
      | succ f2' =>
        rw [replaceAllFuel, replaceAllFuel]
        cases hm : m (c :: cs) with
        | some h =>
          dsimp only
          rw [ih f2' (cs.drop (h.len - 1))
            (by simp only [List.length_drop, List.length_cons] at hs1 ⊢; omega)
            (by simp only [List.length_drop, List.length_cons] at hs2 ⊢; omega)]
        | none =>
          dsimp only
          rw [ih f2' cs (by simpa using hs1) (by simpa using hs2)]

theorem replaceAll_cons (m : Str → Option RegexHit) (repl : RegexHit → Str)
    (c : Char) (cs : Str) :
    replaceAll m repl (c :: cs) =
      match m (c :: cs) with
      | some h => repl h ++ replaceAll m repl (cs.drop (h.len - 1))
      | none => c :: replaceAll m repl cs := by
  show replaceAllFuel m repl (cs.length + 1) (c :: cs) = _
  rw [replaceAllFuel]
  cases hm : m (c :: cs) with
  | some h =>
    dsimp only
    rw [replaceAllFuel_irrel cs.length (cs.drop (h.len - 1)).length
      (cs.drop (h.len - 1)) (by simp) (le_refl _)]
    rfl
  | none =>
    rfl

theorem replaceAll_cons_none {m : Str → Option RegexHit} {repl : RegexHit → Str}
    {c : Char} {cs : Str} (hm : m (c :: cs) = none) :
    replaceAll m repl (c :: cs) = c :: replaceAll m repl cs := by
  rw [replaceAll_cons, hm]

theorem replaceAll_match {m : Str → Option RegexHit} {repl : RegexHit → Str}
    {s rest : Str} {h : RegexHit}
    (hm : m s = some h) (htext : s = h.text ++ rest) (hlen : 1 ≤ h.len) :
    replaceAll m repl s = repl h ++ replaceAll m repl rest := by
  cases s with
  | nil =>
    exfalso
    have := congrArg List.length htext
    simp only [List.length_nil, List.length_append, RegexHit.text_length] at this
    omega
  | cons c cs =>
    rw [replaceAll_cons, hm]
    dsimp only
    congr 1
    have hdrop : (c :: cs).drop h.len = rest := drop_len_of_text htext
    obtain ⟨k, hk⟩ : ∃ k, h.len = k + 1 := ⟨h.len - 1, by omega⟩
    rw [hk] at hdrop
    rw [hk]
    simp only [Nat.add_sub_cancel]
    rw [← hdrop, List.drop_succ_cons]

theorem replaceAll_id_of_none {m : Str → Option RegexHit}
    {repl : RegexHit → Str} :
    ∀ s : Str, (∀ j, m (s.drop j) = none) → replaceAll m repl s = s := by
  intro s
  induction s with
  | nil => intro _; rfl
  | cons c cs ih =>
    intro h
    rw [replaceAll_cons_none (by simpa using h 0),
      ih (fun j => by simpa using h (j + 1))]

theorem replaceAll_append_left {m : Str → Option RegexHit}
    {repl : RegexHit → Str} :
    ∀ (a b : Str), (∀ j, j < a.length → m ((a ++ b).drop j) = none) →
    replaceAll m repl (a ++ b) = a ++ replaceAll m repl b := by
  intro a
  induction a with
  | nil => intro b _; simp
  | cons c a' ih =>
    intro b h
    rw [List.cons_append,
      replaceAll_cons_none (by simpa using h 0 (by simp)),
      ih b (fun j hj => by simpa using h (j + 1) (by simpa using hj))]
    rfl

theorem hasMatch_of_matchAt {m : Str → Option RegexHit} {s : Str} {i : Nat}
    {h : RegexHit} (hi : m (s.drop i) = some h) : hasMatch m s = true := by
  unfold hasMatch
  rw [List.any_eq_true]
  exact ⟨s.drop i, (List.mem_tails _ _).mpr (List.drop_suffix i s),
    by rw [hi]; rfl⟩

theorem hasMatch_false_at {m : Str → Option RegexHit} {s : Str}
    (hm : hasMatch m s = false) (j : Nat) : m (s.drop j) = none := by
  unfold hasMatch at hm
  rw [List.any_eq_false] at hm
  have := hm (s.drop j) ((List.mem_tails _ _).mpr (List.drop_suffix j s))
  cases hmj : m (s.drop j) with
  | none => rfl
  | some h => rw [hmj] at this; cases this rfl

/-- The single-match characterization of `ReplaceAllString`: when the
pattern matches at position `i` and nowhere else (up to the text length),
the result rewrites exactly the matched span and keeps every character
before and after it. -/
theorem replaceAll_unique {m : Str → Option RegexHit} {repl : RegexHit → Str}
    {s : Str} {i : Nat} {h : RegexHit}
    (hi : m (s.drop i) = some h)
    (hsound : s.drop i = h.text ++ (s.drop i).drop h.len)
    (hlen : 1 ≤ h.len)
    (hemp : m [] = none)
    (honly : ∀ j, j < s.length → j ≠ i → m (s.drop j) = none) :
    replaceAll m repl s = s.take i ++ repl h ++ s.drop (i + h.len) := by
  have hall : ∀ j, j ≠ i → m (s.drop j) = none := by
    intro j hj
    by_cases hjl : j < s.length
    · exact honly j hjl hj
    · rw [List.drop_eq_nil_of_le (by omega)]
      exact hemp
  have hne : s.drop i ≠ [] := by
    intro hcon
    rw [hcon] at hi
    rw [hemp] at hi
    cases hi
  have hil : i < s.length := by
    by_contra hcon
    exact hne (List.drop_eq_nil_of_le (by omega))
  have hdd : (s.drop i).drop h.len = s.drop (i + h.len) := by
    rw [List.drop_drop, Nat.add_comm]
  conv_lhs => rw [← List.take_append_drop i s]
  rw [replaceAll_append_left _ _ ?hpre]
  case hpre =>
    intro j hj
    rw [List.take_append_drop]
    refine hall j ?_
    rw [List.length_take] at hj
    omega
  have hrest : replaceAll m repl (s.drop (i + h.len)) = s.drop (i + h.len) :=
    replaceAll_id_of_none _ (fun j => by
      rw [List.drop_drop]
      exact hall (i + h.len + j) (by omega))
  rw [replaceAll_match hi (by rw [hdd] at hsound; exact hsound) hlen, hrest,
    List.append_assoc]

/-! ### Lemmas about `splitOnNl` / `joinNl`. -/

theorem splitOnNl_ne_nil : ∀ s : Str, splitOnNl s ≠ [] := by
  intro s
  cases s with
  | nil => simp [splitOnNl]
  | cons c cs =>
    unfold splitOnNl
    split
    · simp
    · cases splitOnNl cs <;> simp

theorem joinNl_cons_cons (a b : Str) (t : List Str) :
    joinNl (a :: b :: t) = a ++ '\n' :: joinNl (b :: t) := rfl

theorem joinNl_splitOnNl : ∀ s : Str, joinNl (splitOnNl s) = s := by
  intro s
  induction s with
  | nil => rfl
  | cons c cs ih =>
    by_cases hc : c = '\n'
    · subst hc
      show joinNl (splitOnNl ('\n' :: cs)) = '\n' :: cs
      unfold splitOnNl
      rw [if_pos rfl]
      cases hsplit : splitOnNl cs with
      | nil => exact absurd hsplit (splitOnNl_ne_nil cs)
      | cons l ls =>
        rw [hsplit] at ih
        rw [joinNl_cons_cons, ih]
        rfl
    · show joinNl (splitOnNl (c :: cs)) = c :: cs
      unfold splitOnNl
      rw [if_neg hc]
      cases hsplit : splitOnNl cs with
      | nil => exact absurd hsplit (splitOnNl_ne_nil cs)
      | cons l ls =>
        rw [hsplit] at ih
        cases ls with
        | nil =>
          show (c :: l) = c :: cs
          simp only [joinNl] at ih
          rw [ih]
        | cons y ys =>
          rw [joinNl_cons_cons]
          rw [joinNl_cons_cons] at ih
          simp [ih]

theorem splitOnNl_head : ∀ s : Str,
    (splitOnNl s).head? = some (s.takeWhile (fun c => ¬ c = '\n')) := by
  intro s
  induction s with
  | nil => rfl
  | cons c cs ih =>
    unfold splitOnNl
    by_cases hc : c = '\n'
    · rw [if_pos hc]
      subst hc
      simp [List.takeWhile]
    · rw [if_neg hc]
      cases hsplit : splitOnNl cs with
      | nil => exact absurd hsplit (splitOnNl_ne_nil cs)
      | cons l ls =>
        rw [hsplit] at ih
        dsimp only
        simp only [List.head?, Option.some.injEq] at ih ⊢
        rw [List.takeWhile_cons_of_pos (by simpa using hc), ← ih]

theorem splitOnNl_tail : ∀ (s : Str) (l0 : Str) (rest : List Str),
    splitOnNl s = l0 :: rest →
    s.dropWhile (fun c => ¬ c = '\n') =
      (if rest = [] then [] else '\n' :: joinNl rest) := by
  intro s
  induction s with
  | nil =>
    intro l0 rest h
    cases h
    rfl
  | cons c cs ih =>
    intro l0 rest h
    unfold splitOnNl at h
    by_cases hc : c = '\n'
    · rw [if_pos hc] at h
      cases h
      subst hc
      rw [if_neg (splitOnNl_ne_nil cs)]
      rw [List.dropWhile_cons_of_neg (by simp)]
      rw [joinNl_splitOnNl]
    · rw [if_neg hc] at h
      cases hsplit : splitOnNl cs with
      | nil => exact absurd hsplit (splitOnNl_ne_nil cs)
      | cons l ls =>
        rw [hsplit] at h
        dsimp only at h
        cases h
        rw [List.dropWhile_cons_of_pos (by simpa using hc)]
        exact ih _ _ hsplit

theorem head?_takeWhile_not_nl (s : Str) (c : Char) (hc : ¬ c = '\n') :
    (s.takeWhile (fun d => ¬ d = '\n')).head? = some c ↔ s.head? = some c := by
  cases s with
  | nil => simp
  | cons a as =>
    by_cases ha : a = '\n'
    · subst ha
      rw [List.takeWhile_cons_of_neg (by simp)]
      constructor
      · intro h
        simp at h
      · intro h
        simp only [List.head?, Option.some.injEq] at h
        exact absurd h.symm hc
    · rw [List.takeWhile_cons_of_pos (by simpa using ha)]
      simp [List.head?]

/-! ### Lemmas about task lines and the checkbox flip. -/

theorem takeWhile_all_stop {p : Char → Bool} :
    ∀ (a : Str) (b : Char) (r : Str), (∀ x ∈ a, p x = true) → p b = false →
    (a ++ b :: r).takeWhile p = a ∧ (a ++ b :: r).dropWhile p = b :: r := by
  intro a
  induction a with
  | nil =>
    intro b r _ hb
    exact ⟨List.takeWhile_cons_of_neg (by simp [hb]),
      List.dropWhile_cons_of_neg (by simp [hb])⟩
  | cons x xs ih =>
    intro b r ha hb
    have hx : p x = true := ha x (List.mem_cons_self _ _)
    obtain ⟨h1, h2⟩ := ih b r (fun y hy => ha y (List.mem_cons_of_mem _ hy)) hb
    constructor
    · rw [List.cons_append, List.takeWhile_cons_of_pos hx, h1]
    · rw [List.cons_append, List.dropWhile_cons_of_pos hx, h2]

/-- Structure of a line accepted by the updater's checkbox prefix pattern. -/
theorem lineTaskBox_struct {l : Str} {b : Char}
    (h : StatusUpdater.lineTaskBox l = some b) :
    (b = ' ' ∨ b = 'x') ∧
    ∃ w1 w2 rest : Str, l = w1 ++ '-' :: (w2 ++ '[' :: b :: ']' :: rest)
      ∧ (∀ x ∈ w1, isGoSpace x = true) ∧ (∀ x ∈ w2, isGoSpace x = true) := by
  unfold StatusUpdater.lineTaskBox at h
  split at h
  · next dash r2 heq =>
    split at h
    · next hdash =>
      split at h
      · next o bb cl tail heq2 =>
        split at h
        · next hocl =>
          split at h
          · next hbb =>
            cases h
            subst hdash
            obtain ⟨ho, hcl⟩ := hocl
            subst ho
            subst hcl
            refine ⟨hbb, l.takeWhile isGoSpace, r2.takeWhile isGoSpace, tail,
              ?_, ?_, ?_⟩
            · calc l = l.takeWhile isGoSpace ++ l.dropWhile isGoSpace :=
                  span_append _ _
                _ = l.takeWhile isGoSpace ++ '-' :: r2 := by rw [heq]
                _ = l.takeWhile isGoSpace ++ '-' ::
                    (r2.takeWhile isGoSpace ++ r2.dropWhile isGoSpace) := by
                  rw [← span_append]
                _ = _ := by rw [heq2]
            · intro x hx
              exact List.mem_takeWhile_imp hx
            · intro x hx
              exact List.mem_takeWhile_imp hx
          · cases h
        · cases h
      · cases h
    · cases h
  · cases h

/-- A line that matches the parser's full task pattern also matches the
updater's checkbox prefix, with the same checkbox character. -/
theorem matchTaskLine_box {l : Str} {b : Char} {d : Str}
    (h : matchTaskLine l = some (b, d)) :
    StatusUpdater.lineTaskBox l = some b := by
  unfold matchTaskLine at h
  unfold StatusUpdater.lineTaskBox
  split at h
  · next dash r2 heq =>
    split at h
    · next hdash =>
      rw [if_pos hdash]
      split at h
      · next o bb cl tail heq2 =>
        split at h
        · next hocl =>
          rw [if_pos hocl]
          split at h
          · next hbb =>
            rw [if_pos hbb]
            cases htail : tailDotPlus tail with
            | none => rw [htail] at h; cases h
            | some dd => rw [htail] at h; cases h; rfl
          · cases h
        · cases h
      · cases h
    · cases h
  · cases h

/-- Flipping a checked line is the identity: the complete pattern
`\[\s*\]` does not match `[x]`. -/
theorem completeTaskLine_of_x {l : Str}
    (h : StatusUpdater.lineTaskBox l = some 'x') :
    StatusUpdater.completeTaskLine l = l := by
  obtain ⟨-, w1, w2, rest, hl, hw1, hw2⟩ := lineTaskBox_struct h
  obtain ⟨ht1, hd1⟩ := takeWhile_all_stop w1 '-' (w2 ++ '[' :: 'x' :: ']' :: rest)
    hw1 (by decide)
  obtain ⟨ht2, hd2⟩ := takeWhile_all_stop w2 '[' ('x' :: ']' :: rest) hw2
    (by decide)
  unfold StatusUpdater.completeTaskLine StatusUpdater.lineCompletePrefixLen
  rw [hl, hd1]
  dsimp only
  rw [if_pos rfl, hd2]
  dsimp only
  rw [if_pos rfl,
    show ('x' :: ']' :: rest).dropWhile isGoSpace = 'x' :: ']' :: rest from rfl]
  dsimp only
  rw [if_neg (by decide)]

/-- Flipping an unchecked line rewrites its matched prefix to `- [x]` and
keeps the remainder of the line. -/
theorem completeTaskLine_of_space {l : Str}
    (h : StatusUpdater.lineTaskBox l = some ' ') :
    ∃ w1 w2 rest : Str,
      l = w1 ++ '-' :: (w2 ++ '[' :: ' ' :: ']' :: rest)
      ∧ StatusUpdater.completeTaskLine l = "- [x]".toList ++ rest := by
  obtain ⟨-, w1, w2, rest, hl, hw1, hw2⟩ := lineTaskBox_struct h
  refine ⟨w1, w2, rest, hl, ?_⟩
  obtain ⟨ht1, hd1⟩ := takeWhile_all_stop w1 '-' (w2 ++ '[' :: ' ' :: ']' :: rest)
    hw1 (by decide)
  obtain ⟨ht2, hd2⟩ := takeWhile_all_stop w2 '[' (' ' :: ']' :: rest) hw2
    (by decide)
  unfold StatusUpdater.completeTaskLine StatusUpdater.lineCompletePrefixLen
  rw [hl, hd1]
  dsimp only
  rw [if_pos rfl, hd2]
  dsimp only
  rw [if_pos rfl,
    show (' ' :: ']' :: rest).dropWhile isGoSpace = ']' :: rest from rfl]
  dsimp only
  rw [if_pos rfl]
  dsimp only
  rw [ht1, ht2,
    show (' ' :: ']' :: rest).takeWhile isGoSpace = [' '] from rfl]
  congr 1
  have hform : w1 ++ '-' :: (w2 ++ '[' :: ' ' :: ']' :: rest) =
      (w1 ++ '-' :: (w2 ++ ['[', ' ', ']'])) ++ rest := by simp
  rw [hform]
  rw [show w1.length + 1 + w2.length + 1 + ([' '] : Str).length + 1 =
    (w1 ++ '-' :: (w2 ++ ['[', ' ', ']'])).length by simp; omega]
  exact List.drop_left _ _

/-- The checkbox of a flipped line is checked. -/
theorem lineTaskBox_flip (rest : Str) :
    StatusUpdater.lineTaskBox ("- [x]".toList ++ rest) = some 'x' := rfl


theorem boxIdxs_eq_taskIdxs :
    ∀ ls : List Str,
    (∀ l ∈ ls, (StatusUpdater.lineTaskBox l).isSome = true →
      (matchTaskLine l).isSome = true) →
    boxIdxs ls = taskIdxs ls := by
  intro ls
  induction ls with
  | nil => intro _; rfl
  | cons l ls ih =>
    intro h
    unfold boxIdxs taskIdxs
    have htail := ih (fun x hx => h x (List.mem_cons_of_mem _ hx))
    cases hbox : (StatusUpdater.lineTaskBox l).isSome with
    | true =>
      rw [if_pos rfl, if_pos (h l (List.mem_cons_self _ _) hbox), htail]
    | false =>
      have htask : (matchTaskLine l).isSome = false := by
        cases hml : matchTaskLine l with
        | none => rfl
        | some pr =>
          obtain ⟨b, d⟩ := pr
          rw [matchTaskLine_box hml] at hbox
          cases hbox
      rw [if_neg (by simp [hbox]), if_neg (by simp [htask]), htail]

theorem completeTaskLoop_set :
    ∀ (ls : List Str) (g L : Nat), (boxIdxs ls).get? g = some L →
    StatusUpdater.completeTaskLoop ls (g : Int) =
      ls.set L (StatusUpdater.completeTaskLine (ls.getD L [])) := by
  intro ls
  induction ls with
  | nil => intro g L h; cases h
  | cons l ls ih =>
    intro g L h
    unfold boxIdxs at h
    unfold StatusUpdater.completeTaskLoop
    split at h
    · next hbox =>
      rw [if_pos hbox]
      cases g with
      | zero =>
        simp only [List.get?] at h
        cases h
        rw [if_pos (by decide)]
        rfl
      | succ g' =>
        simp only [List.get?, List.get?_map] at h
        cases hL' : (boxIdxs ls).get? g' with
        | none => rw [hL'] at h; cases h
        | some L' =>
          rw [hL'] at h
          cases h
          rw [if_neg (by omega)]
          rw [show ((g' + 1 : Nat) : Int) - 1 = ((g' : Nat) : Int) by omega]
          rw [ih g' L' hL']
          rfl
    · next hbox =>
      rw [if_neg hbox]
      rw [List.get?_map] at h
      cases hL' : (boxIdxs ls).get? g with
      | none => rw [hL'] at h; cases h
      | some L' =>
        rw [hL'] at h
        cases h
        rw [ih g L' hL']
        rfl

theorem taskIdxs_get :
    ∀ (ls : List Str) (g L : Nat), (taskIdxs ls).get? g = some L →
    ∃ pr, matchTaskLine (ls.getD L []) = some pr ∧
      (ls.filterMap matchTaskLine).get? g = some pr := by
  intro ls
  induction ls with
  | nil => intro g L h; cases h
  | cons l ls ih =>
    intro g L h
    unfold taskIdxs at h
    cases hml : matchTaskLine l with
    | some pr =>
      rw [if_pos (by rw [hml]; rfl)] at h
      cases g with
      | zero =>
        simp only [List.get?] at h
        cases h
        refine ⟨pr, hml, ?_⟩
        rw [List.filterMap_cons_some hml]
        rfl
      | succ g' =>
        simp only [List.get?, List.get?_map] at h
        cases hL' : (taskIdxs ls).get? g' with
        | none => rw [hL'] at h; cases h
        | some L' =>
          rw [hL'] at h
          cases h
          obtain ⟨pr', hpr', hget⟩ := ih g' L' hL'
          refine ⟨pr', hpr', ?_⟩
          rw [List.filterMap_cons_some hml]
          exact hget
    | none =>
      rw [if_neg (by rw [hml]; simp)] at h
      rw [List.get?_map] at h
      cases hL' : (taskIdxs ls).get? g with
      | none => rw [hL'] at h; cases h
      | some L' =>
        rw [hL'] at h
        cases h
        obtain ⟨pr', hpr', hget⟩ := ih g L' hL'
        refine ⟨pr', hpr', ?_⟩
        rw [List.filterMap_cons_none hml]
        exact hget

theorem taskIdxs_length :
    ∀ ls : List Str,
    (taskIdxs ls).length = (ls.filterMap matchTaskLine).length := by
  intro ls
  induction ls with
  | nil => rfl
  | cons l ls ih =>
    unfold taskIdxs
    cases hml : matchTaskLine l with
    | some pr =>
      rw [List.filterMap_cons_some hml]
      simp [ih]
    | none =>
      rw [List.filterMap_cons_none hml]
      simp [ih]

theorem boxIdxs_length_eq :
    ∀ ls : List Str,
    (∀ l ∈ ls, (StatusUpdater.lineTaskBox l).isSome = true →
      (matchTaskLine l).isSome = true) →
    (boxIdxs ls).length = (ls.filterMap matchTaskLine).length := by
  intro ls h
  rw [boxIdxs_eq_taskIdxs ls h, taskIdxs_length]

/-! ### The scanner's lines versus `strings.Split`: with no carriage
returns, `scanLines` differs from `splitOnNl` only by a trailing empty
token when the contents end in a newline. -/

theorem mem_splitOnNl :
    ∀ (s l : Str), l ∈ splitOnNl s → ∀ c ∈ l, c ∈ s := by
  intro s
  induction s with
  | nil =>
    intro l hl c hc
    simp [splitOnNl] at hl
    subst hl
    cases hc
  | cons a cs ih =>
    intro l hl c hc
    unfold splitOnNl at hl
    by_cases ha : a = '\n'
    · rw [if_pos ha] at hl
      rcases List.mem_cons.mp hl with h1 | h1
      · subst h1; cases hc
      · exact List.mem_cons_of_mem _ (ih l h1 c hc)
    · rw [if_neg ha] at hl
      cases hsp : splitOnNl cs with
      | nil => exact absurd hsp (splitOnNl_ne_nil cs)
      | cons l0 ls =>
        rw [hsp] at hl
        dsimp only at hl
        rcases List.mem_cons.mp hl with h1 | h1
        · subst h1
          rcases List.mem_cons.mp hc with h2 | h2
          · subst h2; exact List.mem_cons_self _ _
          · exact List.mem_cons_of_mem _
              (ih l0 (by rw [hsp]; exact List.mem_cons_self _ _) c h2)
        · exact List.mem_cons_of_mem _
            (ih l (by rw [hsp]; exact List.mem_cons_of_mem _ h1) c hc)

theorem dropCR_no_cr {l : Str} (h : '\r' ∉ l) : dropCR l = l := by
  unfold dropCR
  split
  · next hlast =>
    have hne : l ≠ [] := by
      intro hn
      subst hn
      exact absurd hlast (by simp)
    have h1 := List.getLast?_eq_getLast l hne
    rw [hlast] at h1
    have h2 : '\r' = l.getLast hne := Option.some_inj.mp h1
    exact absurd (h2 ▸ List.getLast_mem hne) h
  · rfl

theorem map_dropCR_id :
    ∀ ls : List Str, (∀ l ∈ ls, '\r' ∉ l) → ls.map dropCR = ls := by
  intro ls
  induction ls with
  | nil => intro _; rfl
  | cons l ls ih =>
    intro h
    rw [List.map_cons, dropCR_no_cr (h l (List.mem_cons_self _ _)),
      ih (fun x hx => h x (List.mem_cons_of_mem _ hx))]

theorem splitOnNl_append_nl :
    ∀ s : Str, splitOnNl (s ++ ['\n']) = splitOnNl s ++ [[]] := by
  intro s
  induction s with
  | nil => rfl
  | cons a cs ih =>
    by_cases ha : a = '\n'
    · subst ha
      show splitOnNl ('\n' :: (cs ++ ['\n'])) = splitOnNl ('\n' :: cs) ++ [[]]
      unfold splitOnNl
      rw [if_pos rfl, if_pos rfl, ih]
      rfl
    · show splitOnNl (a :: (cs ++ ['\n'])) = splitOnNl (a :: cs) ++ [[]]
      unfold splitOnNl
      rw [if_neg ha, if_neg ha]
      cases hsp : splitOnNl cs with
      | nil => exact absurd hsp (splitOnNl_ne_nil cs)
      | cons l0 ls =>
        rw [ih, hsp]
        rfl

theorem splitOnNl_no_nl : ∀ s : Str, '\n' ∉ s → splitOnNl s = [s] := by
  intro s
  induction s with
  | nil => intro _; rfl
  | cons c cs ih =>
    intro h
    unfold splitOnNl
    rw [if_neg (fun hc => h (by subst hc; exact List.mem_cons_self _ _)),
      ih (fun hm => h (List.mem_cons_of_mem _ hm))]

theorem scanLines_splitOnNl {content : Str} (hcr : '\r' ∉ content) :
    splitOnNl content = scanLines content ∨
      splitOnNl content = scanLines content ++ [[]] := by
  have hnol : ∀ l ∈ splitOnNl content, '\r' ∉ l :=
    fun l hl hc => hcr (mem_splitOnNl content l hl '\r' hc)
  unfold scanLines
  by_cases hnil : content = []
  · rw [if_pos hnil]
    subst hnil
    right
    rfl
  · rw [if_neg hnil]
    by_cases hlast : content.getLast? = some '\n'
    · rw [if_pos hlast]
      right
      have hgl : content.getLast hnil = '\n' := by
        have h1 := List.getLast?_eq_getLast content hnil
        exact Option.some_inj.mp (h1.symm.trans hlast)
      have hform : content = content.dropLast ++ ['\n'] := by
        conv_lhs => rw [← List.dropLast_append_getLast hnil, hgl]
      conv_lhs => rw [hform, splitOnNl_append_nl]
      have hdl : (splitOnNl content).dropLast = splitOnNl content.dropLast := by
        conv_lhs => rw [hform, splitOnNl_append_nl]
        exact List.dropLast_concat
      rw [hdl, map_dropCR_id _ (fun l hl => hnol l (by
        rw [hform, splitOnNl_append_nl]
        exact List.mem_append_left _ hl))]
    · rw [if_neg hlast]
      left
      rw [map_dropCR_id _ hnol]

theorem filterMap_matchTaskLine_append_nil (ls : List Str) :
    (ls ++ [([] : Str)]).filterMap matchTaskLine =
      ls.filterMap matchTaskLine := by
  rw [List.filterMap_append]
  have h : ([([] : Str)]).filterMap matchTaskLine = [] := rfl
  rw [h, List.append_nil]

/-! ### The tasks collected by the parser, projected to
(checkbox, description): one entry per line matching the task pattern, in
document order. -/

theorem parseLine_tasks_map (st : WorkItem × Str) (line : Str) :
    ((parseLine st line).1.tasks).map (fun t => (t.completed, t.description)) =
      ((st.1.tasks).map (fun t => (t.completed, t.description))) ++
      (match matchTaskLine line with
        | some pr => [(decide (pr.1 = 'x'), trimSpace pr.2)]
        | none => []) := by
  unfold parseLine
  cases hml : matchTaskLine line with
  | none =>
    cases matchTitleHeading line <;>
      cases findFirst? (matchWordTokLabel false "Status:".toList) line <;>
      cases findFirst? (matchWordTokLabel false "Phase:".toList) line <;>
      cases findFirst? (matchProgressAt false) line <;>
      cases findFirst? (matchAssigneeAt false) line <;>
      simp [apply_ite WorkItem.tasks]
  | some pr =>
    obtain ⟨b, d⟩ := pr
    cases matchTitleHeading line <;>
      cases findFirst? (matchWordTokLabel false "Status:".toList) line <;>
      cases findFirst? (matchWordTokLabel false "Phase:".toList) line <;>
      cases findFirst? (matchProgressAt false) line <;>
      cases findFirst? (matchAssigneeAt false) line <;>
      simp [apply_ite WorkItem.tasks]

theorem foldl_parseLine_tasks :
    ∀ (ls : List Str) (st : WorkItem × Str),
    ((ls.foldl parseLine st).1.tasks).map (fun t => (t.completed, t.description)) =
      ((st.1.tasks).map (fun t => (t.completed, t.description))) ++
      (ls.filterMap matchTaskLine).map
        (fun pr => (decide (pr.1 = 'x'), trimSpace pr.2)) := by
  intro ls
  induction ls with
  | nil => intro st; simp
  | cons l ls ih =>
    intro st
    rw [List.foldl_cons, ih (parseLine st l), parseLine_tasks_map]
    cases hml : matchTaskLine l with
    | some pr => rw [List.filterMap_cons_some hml]; simp
    | none => rw [List.filterMap_cons_none hml]; simp

theorem parseWorkItem_tasks_map (name path content : Str) :
    ((ParseWorkItem name path content).tasks).map
        (fun t => (t.completed, t.description)) =
      ((scanLines content).filterMap matchTaskLine).map
        (fun pr => (decide (pr.1 = 'x'), trimSpace pr.2)) := by
  unfold ParseWorkItem
  dsimp only
  generalize hg : ((scanLines content).foldl parseLine
    ({ name := name, path := path, status := "UNKNOWN".toList,
       phase := PhaseDiscovery }, PhaseDiscovery)).1 = it
  have h := foldl_parseLine_tasks (scanLines content)
    ({ name := name, path := path, status := "UNKNOWN".toList,
       phase := PhaseDiscovery }, PhaseDiscovery)
  rw [hg] at h
  (repeat' split) <;> simpa using h

/-! ### The global-index translation loop of `WorkItemService.CompleteTask`:
on an in-range phase-local index it lands on the position of the
`taskId`-th phase-matching task. -/

theorem findGlobalTaskId_spec :
    ∀ (ts : List Task) (phase : Str) (tid i : Int),
    0 ≤ tid → tid < ((ts.filter (fun t => t.phase = phase)).length : Int) →
    ∃ g : Nat,
      WorkItemService.findGlobalTaskId ts phase tid i = i + (g : Int) ∧
      ((ts.take g).filter (fun t => t.phase = phase)).length = tid.toNat ∧
      ∃ t, ts.get? g = some t ∧ t.phase = phase := by
  intro ts
  induction ts with
  | nil =>
    intro phase tid i h0 h1
    simp at h1
    omega
  | cons t ts ih =>
    intro phase tid i h0 h1
    unfold WorkItemService.findGlobalTaskId
    by_cases hp : t.phase = phase
    · rw [if_pos hp]
      by_cases ht0 : tid = 0
      · subst ht0
        rw [if_pos rfl]
        exact ⟨0, by simp, by simp, t, rfl, hp⟩
      · rw [if_neg ht0]
        have h1' : tid - 1 <
            ((ts.filter (fun t => t.phase = phase)).length : Int) := by
          rw [List.filter_cons_of_pos (by simpa using hp)] at h1
          simp at h1
          omega
        obtain ⟨g, hg, hcount, t', ht', hp'⟩ :=
          ih phase (tid - 1) (i + 1) (by omega) h1'
        refine ⟨g + 1, ?_, ?_, t', by simpa using ht', hp'⟩
        · rw [hg]
          push_cast
          ring
        · rw [List.take_succ_cons,
            List.filter_cons_of_pos (by simpa using hp)]
          simp only [List.length_cons, hcount]
          omega
    · rw [if_neg hp]
      have h1' : tid < ((ts.filter (fun t => t.phase = phase)).length : Int) := by
        rw [List.filter_cons_of_neg (by simpa using hp)] at h1
        exact h1
      obtain ⟨g, hg, hcount, t', ht', hp'⟩ := ih phase tid (i + 1) h0 h1'
      refine ⟨g + 1, ?_, ?_, t', by simpa using ht', hp'⟩
      · rw [hg]
        push_cast
        ring
      · rw [List.take_succ_cons,
          List.filter_cons_of_neg (by simpa using hp)]
        exact hcount

/-! ### The checkbox-flip loop out of range, and on an already-checked
line. -/

theorem completeTaskLoop_oob :
    ∀ (ls : List Str) (tid : Int), ((boxIdxs ls).length : Int) ≤ tid →
    StatusUpdater.completeTaskLoop ls tid = ls := by
  intro ls
  induction ls with
  | nil => intro tid _; rfl
  | cons l ls ih =>
    intro tid h
    unfold StatusUpdater.completeTaskLoop
    unfold boxIdxs at h
    by_cases hbox : (StatusUpdater.lineTaskBox l).isSome = true
    · rw [if_pos hbox] at h ⊢
      simp only [List.length_cons, List.length_map] at h
      have hlen : ((boxIdxs ls).length : Int) + 1 ≤ tid := by
        push_cast at h ⊢
        omega
      rw [if_neg (by omega), ih (tid - 1) (by omega)]
    · rw [if_neg hbox] at h ⊢
      simp only [List.length_map] at h
      rw [ih tid h]

theorem set_getD_self : ∀ (ls : List Str) (L : Nat),
    ls.set L (ls.getD L []) = ls := by
  intro ls
  induction ls with
  | nil => intro L; rfl
  | cons l ls ih =>
    intro L
    cases L with
    | zero => rfl
    | succ n =>
      rw [List.getD_cons_succ, List.set_cons_succ, ih]

theorem completeTaskLoop_id_of_x {ls : List Str} {g : Nat}
    (hx : ((boxIdxs ls).get? g).all
      (fun L => StatusUpdater.lineTaskBox (ls.getD L []) = some 'x') = true) :
    StatusUpdater.completeTaskLoop ls ((g : Nat) : Int) = ls := by
  cases hL : (boxIdxs ls).get? g with
  | none =>
    refine completeTaskLoop_oob ls _ ?_
    rw [List.get?_eq_none] at hL
    exact_mod_cast hL
  | some L =>
    rw [hL] at hx
    simp only [Option.all] at hx
    have hbx : StatusUpdater.lineTaskBox (ls.getD L []) = some 'x' := by
      simpa using hx
    rw [completeTaskLoop_set ls g L hL, completeTaskLine_of_x hbx,
      set_getD_self]

/-! ### `ReplaceAllString` is the identity when the template reproduces
every match, and the progress pattern's trailing context. -/

theorem matchProgressAt_post {ci : Bool} {s : Str} {h : RegexHit}
    (hm : matchProgressAt ci s = some h) : h.post = ['%'] := by
  unfold matchProgressAt at hm
  cases h1 : matchLabelPrefix ci "Progress:".toList s with
  | none => rw [h1] at hm; cases hm
  | some pr =>
    obtain ⟨g1, r⟩ := pr
    rw [h1] at hm
    dsimp only at hm
    rw [List.span_eq_take_drop] at hm
    dsimp only at hm
    split at hm
    · cases hm
    · split at hm
      · cases hm; rfl
      · cases hm

theorem replaceAll_id_of_repl {m : Str → Option RegexHit}
    {repl : RegexHit → Str}
    (hsound : ∀ (s : Str) (h : RegexHit), m s = some h →
      s = h.text ++ s.drop h.len ∧ 1 ≤ h.len) :
    ∀ (n : Nat) (s : Str), s.length ≤ n →
    (∀ (j : Nat) (h : RegexHit), m (s.drop j) = some h → repl h = h.text) →
    replaceAll m repl s = s := by
  intro n
  induction n with
  | zero =>
    intro s hs _
    have : s = [] := List.length_eq_zero.mp (by omega)
    subst this
    rfl
  | succ n ih =>
    intro s hs H
    cases s with
    | nil => rfl
    | cons c cs =>
      rw [replaceAll_cons]
      cases hm : m (c :: cs) with
      | none =>
        dsimp only
        rw [ih cs (by simp at hs; omega)
          (fun j h hj => H (j + 1) h (by simpa using hj))]
      | some h =>
        dsimp only
        obtain ⟨htext, hlen⟩ := hsound (c :: cs) h hm
        have hr : repl h = h.text := H 0 h (by simpa using hm)
        have hdrop : cs.drop (h.len - 1) = (c :: cs).drop h.len := by
          obtain ⟨k, hk⟩ : ∃ k, h.len = k + 1 := ⟨h.len - 1, by omega⟩
          rw [hk]
          simp
        rw [ih (cs.drop (h.len - 1))
            (by simp only [List.length_drop, List.length_cons] at hs ⊢; omega)
            (fun j hh hj => by
              rw [hdrop, List.drop_drop] at hj
              exact H _ hh hj),
          hr, hdrop]
        exact htext.symm

theorem updateProgress_id {content : Str} {v : Int}
    (hmatch : hasMatch (matchProgressAt true) content = true)
    (htok : ∀ s ∈ content.tails,
      ((matchProgressAt true s).all (fun h => h.tok = intToStr v)) = true) :
    StatusUpdater.UpdateProgress content v = content := by
  simp only [StatusUpdater.UpdateProgress]
  rw [if_pos hmatch]
  refine replaceAll_id_of_repl (fun s h hm => matchProgressAt_sound hm)
    content.length content le_rfl (fun j h hj => ?_)
  have hmem : content.drop j ∈ content.tails :=
    (List.mem_tails _ _).mpr (List.drop_suffix j content)
  have hall := htok _ hmem
  rw [hj] at hall
  simp only [Option.all] at hall
  have htk : h.tok = intToStr v := by simpa using hall
  have hpost := matchProgressAt_post hj
  show h.g1 ++ intToStr v ++ ['%'] = h.text
  rw [RegexHit.text, hpost, htk]

/-! ## Claim theorems. -/

/-- C1: `AdvancePhase` determines the next (phase, status) pair solely from
the current status, per the fixed table (`getNextPhase` ignores its phase
argument); for any status outside the six advanceable ones — COMPLETED or
any unrecognized status such as the parse sentinel "UNKNOWN" —
`AdvancePhase` fails with a `PhaseError`, so no transition is ever
persisted (the service only writes on `.ok`). -/
theorem advancePhase_follows_status_table :
    (∀ ph ph' st, getNextPhase ph st = getNextPhase ph' st
      ∨ (∃ e e', getNextPhase ph st = .error e ∧ getNextPhase ph' st = .error e'))
    ∧ (∀ ph, getNextPhase ph StatusProposed =
        .ok (PhaseDiscovery, StatusInProgressDiscovery))
    ∧ (∀ ph, getNextPhase ph StatusInProgressDiscovery =
        .ok (PhasePlanning, StatusInProgressPlanning))
    ∧ (∀ ph, getNextPhase ph StatusInProgressPlanning =
        .ok (PhaseExecution, StatusInProgressExecution))
    ∧ (∀ ph, getNextPhase ph StatusInProgressExecution =
        .ok (PhaseCleanup, StatusInProgressCleanup))
    ∧ (∀ ph, getNextPhase ph StatusInProgressCleanup =
        .ok (PhaseCleanup, StatusInProgressReview))
    ∧ (∀ ph, getNextPhase ph StatusInProgressReview =
        .ok (PhaseCleanup, StatusCompleted))
    ∧ (∀ item : WorkItem, item.status ∉ advanceableStatuses →
        ∃ e, AdvancePhase item = .error e ∧ e.isPhaseError = true)
    ∧ (∀ (item : WorkItem) pr, AdvancePhase item = .ok pr →
        getNextPhase item.phase item.status = .ok pr) := by
  refine ⟨?_, ?_, ?_, ?_, ?_, ?_, ?_, ?_, ?_⟩
  · intro ph ph' st
    by_cases h1 : st = StatusProposed
    · subst h1; left; rfl
    · by_cases h2 : st = StatusInProgressDiscovery
      · subst h2; left; rfl
      · by_cases h3 : st = StatusInProgressPlanning
        · subst h3; left; rfl
        · by_cases h4 : st = StatusInProgressExecution
          · subst h4; left; rfl
          · by_cases h5 : st = StatusInProgressCleanup
            · subst h5; left; rfl
            · by_cases h6 : st = StatusInProgressReview
              · subst h6; left; rfl
              · right
                have hd : st ∉ advanceableStatuses := by
                  simp [advanceableStatuses, h1, h2, h3, h4, h5, h6]
                exact ⟨_, _, getNextPhase_default hd, getNextPhase_default hd⟩
  · intro ph; rfl
  · intro ph; unfold getNextPhase
    rw [if_neg (by decide), if_pos rfl]
  · intro ph; unfold getNextPhase
    rw [if_neg (by decide), if_neg (by decide), if_pos rfl]
  · intro ph; unfold getNextPhase
    rw [if_neg (by decide), if_neg (by decide), if_neg (by decide), if_pos rfl]
  · intro ph; unfold getNextPhase
    rw [if_neg (by decide), if_neg (by decide), if_neg (by decide),
      if_neg (by decide), if_pos rfl]
  · intro ph; unfold getNextPhase
    rw [if_neg (by decide), if_neg (by decide), if_neg (by decide),
      if_neg (by decide), if_neg (by decide), if_pos rfl]
  · intro item h
    unfold AdvancePhase
    cases hv : validatePhaseTasksCompleted item with
    | error e => exact ⟨e, rfl, validate_error_isPhaseError hv⟩
    | ok u =>
      cases u
      rw [getNextPhase_default h]
      exact ⟨_, rfl, rfl⟩
  · intro item pr h
    unfold AdvancePhase at h
    cases hv : validatePhaseTasksCompleted item with
    | error e => rw [hv] at h; cases h
    | ok u => cases u; rw [hv] at h; exact h

/-- C1 witness: the table rows at a concrete phase, and a concrete
COMPLETED work item on which `AdvancePhase` fails with a `PhaseError`. -/
theorem advancePhase_follows_status_table_witness :
    ∃ e, AdvancePhase { status := StatusCompleted : WorkItem } = .error e
      ∧ e.isPhaseError = true := by
  exact advancePhase_follows_status_table.2.2.2.2.2.2.2.1
    { status := StatusCompleted } (by decide)

/-- C2: for an item whose status is not PROPOSED, `AdvancePhase` fails with
a `PhaseError` whenever some task of the item's current phase is
incomplete; with status PROPOSED the gating check is skipped entirely, so
`AdvancePhase` succeeds (with the first table row) no matter which tasks
are incomplete. -/
theorem advancePhase_gating (item : WorkItem) :
    (item.status ≠ StatusProposed →
      (∃ t ∈ item.tasks, t.phase = item.phase ∧ t.completed = false) →
      ∃ e, AdvancePhase item = .error e ∧ e.isPhaseError = true)
    ∧ (item.status = StatusProposed →
        AdvancePhase item = .ok (PhaseDiscovery, StatusInProgressDiscovery)) := by
  constructor
  · intro hs ⟨t, ht, htp, htc⟩
    have hmem : t ∈ item.tasks.filter (fun t => t.phase = item.phase) := by
      simp only [List.mem_filter, decide_eq_true_eq]
      exact ⟨ht, htp⟩
    have hfind : ((item.tasks.filter (fun t => t.phase = item.phase)).find?
        (fun t => ¬ t.completed)).isSome = true := by
      rw [List.find?_isSome]
      exact ⟨t, hmem, by simp [htc]⟩
    unfold AdvancePhase validatePhaseTasksCompleted
    rw [if_neg hs]
    dsimp only
    cases hf : (item.tasks.filter (fun t => t.phase = item.phase)).find?
        (fun t => ¬ t.completed) with
    | none => rw [hf] at hfind; cases hfind
    | some t' => exact ⟨_, rfl, rfl⟩
  · intro hs
    unfold AdvancePhase validatePhaseTasksCompleted
    rw [if_pos hs, hs]
    rfl





/-- C2 witness: the gating rejection on `gatedItem` and the skipped check on
`proposedItem`, both with an incomplete discovery task. -/
theorem advancePhase_gating_witness :
    (∃ e, AdvancePhase gatedItem = .error e ∧ e.isPhaseError = true)
    ∧ AdvancePhase proposedItem =
        .ok (PhaseDiscovery, StatusInProgressDiscovery) := by
  constructor
  · exact (advancePhase_gating gatedItem).1 (by decide)
      ⟨{ description := "task one".toList, completed := false,
         phase := PhaseDiscovery, assignedTo := [] }, by decide⟩
  · exact (advancePhase_gating proposedItem).2 rfl

/-- C6: overall progress is `⌊100 × completedTasks / totalTasks⌋` (0 with
no tasks), with truncating natural division; in particular any item with
exactly 3 tasks, 2 of them completed, reports 66, not 67. -/
theorem metrics_overall_progress_floor (now : Int) (item : WorkItem) :
    ((CalculateWorkItemMetrics now item).overallProgress =
      if item.tasks.length = 0 then 0
      else ((⌊(100 * ((item.tasks.filter (fun t => t.completed)).length : ℚ)) /
          ((item.tasks.length : ℚ))⌋₊ : Nat) : Int))
    ∧ (item.tasks.length = 3 →
        (item.tasks.filter (fun t => t.completed)).length = 2 →
        (CalculateWorkItemMetrics now item).overallProgress = 66) := by
  have hmain : (CalculateWorkItemMetrics now item).overallProgress =
      if item.tasks.length = 0 then 0
      else ((⌊(100 * ((item.tasks.filter (fun t => t.completed)).length : ℚ)) /
          ((item.tasks.length : ℚ))⌋₊ : Nat) : Int) := by
    show (if item.tasks.length > 0
        then (((item.tasks.filter (fun t => t.completed)).length * 100 /
          item.tasks.length : Nat) : Int) else 0) = _
    rcases Nat.eq_zero_or_pos item.tasks.length with h0 | hpos
    · simp [h0]
    · rw [if_pos hpos, if_neg (Nat.pos_iff_ne_zero.mp hpos)]
      congr 1
      rw [show ((100 : ℚ) * ((item.tasks.filter (fun t => t.completed)).length : ℚ)) =
          (((100 * (item.tasks.filter (fun t => t.completed)).length : Nat)) : ℚ) by
        push_cast; ring]
      rw [Nat.floor_div_nat, Nat.floor_natCast, Nat.mul_comm]
  refine ⟨hmain, fun h3 h2 => ?_⟩
  show (if item.tasks.length > 0
      then (((item.tasks.filter (fun t => t.completed)).length * 100 /
        item.tasks.length : Nat) : Int) else 0) = 66
  rw [h3, h2]
  decide

/-- C6 witness: a concrete item with 3 tasks, 2 completed, reports 66. -/
theorem metrics_overall_progress_floor_witness :
    (CalculateWorkItemMetrics 0
      { tasks := [{ description := [], completed := true, phase := [], assignedTo := [] },
                  { description := [], completed := true, phase := [], assignedTo := [] },
                  { description := [], completed := false, phase := [], assignedTo := [] }] }).overallProgress = 66 := by
  exact (metrics_overall_progress_floor 0 _).2 (by decide) (by decide)



/-- C9 counterexample: `zeroTaskMetrics` has progress 0 < 100 and no
accumulated phase time, so the claim places it in the "insufficient data"
case; but `PredictCompletionTime` returns `updatedAt` with the distinct
"All tasks completed" message (instructions.go 182–185), because
`remainingTasks ≤ 0` is checked first. -/
theorem predictCompletionTime_zero_tasks_not_insufficient :
    zeroTaskMetrics.overallProgress < 100
    ∧ ¬(0 < (zeroTaskMetrics.phaseProgress.map (fun pp => pp.timeSpent)).foldl
          (fun a b => wrap64 (a + b)) 0
        ∧ 0 < zeroTaskMetrics.overallProgress)
    ∧ PredictCompletionTime 0 zeroTaskMetrics ≠ (0, .insufficientData)
    ∧ PredictCompletionTime 0 zeroTaskMetrics =
        (zeroTaskMetrics.updatedAt, .allTasksCompleted) := by
  refine ⟨by decide, by decide, by decide, by decide⟩

/-- C9 (amended): the full case analysis of `PredictCompletionTime`, in
Go's 64-bit two's-complement arithmetic.  Progress ≥ 100 yields
`updatedAt` / "already completed"; otherwise, when no tasks remain (the
wrapped `totalTasks − completedTasks` is ≤ 0), `updatedAt` / "all tasks
completed"; otherwise, when the wrapped running sum of the per-phase times
and the progress are both positive, the remaining time is the 64-bit wrap
of `(totalTimeSpent / progress) × (100 − progress)` (truncating division;
the wrap makes it negative for large accumulated times) and the prediction
is the wrapped `now` plus that; in every remaining case the result is the
zero time with "insufficient data". -/
theorem predictCompletionTime_cases (now : Int) (m : WorkItemMetrics) :
    (m.overallProgress ≥ 100 →
      PredictCompletionTime now m = (m.updatedAt, .alreadyCompleted))
    ∧ (m.overallProgress < 100 →
      wrap64 (m.totalTasks - m.completedTasks) ≤ 0 →
      PredictCompletionTime now m = (m.updatedAt, .allTasksCompleted))
    ∧ (m.overallProgress < 100 →
      0 < wrap64 (m.totalTasks - m.completedTasks) →
      0 < (m.phaseProgress.map (fun pp => pp.timeSpent)).foldl
          (fun a b => wrap64 (a + b)) 0 →
      0 < m.overallProgress →
      PredictCompletionTime now m =
        (wrap64 (now + wrap64 (Int.tdiv
            ((m.phaseProgress.map (fun pp => pp.timeSpent)).foldl
              (fun a b => wrap64 (a + b)) 0)
            m.overallProgress * (100 - m.overallProgress))),
         .basedOnCurrentProgressRate
          (wrap64 (Int.tdiv
            ((m.phaseProgress.map (fun pp => pp.timeSpent)).foldl
              (fun a b => wrap64 (a + b)) 0)
            m.overallProgress * (100 - m.overallProgress)))))
    ∧ (m.overallProgress < 100 →
      0 < wrap64 (m.totalTasks - m.completedTasks) →
      ¬(0 < (m.phaseProgress.map (fun pp => pp.timeSpent)).foldl
            (fun a b => wrap64 (a + b)) 0
          ∧ 0 < m.overallProgress) →
      PredictCompletionTime now m = (0, .insufficientData)) := by
  refine ⟨?_, ?_, ?_, ?_⟩
  · intro h
    unfold PredictCompletionTime
    rw [if_pos h]
  · intro h1 h2
    unfold PredictCompletionTime
    rw [if_neg (by omega), if_pos h2]
  · intro h1 h2 h3 h4
    unfold PredictCompletionTime
    rw [if_neg (by omega), if_neg (by omega), if_pos ⟨h3, h4⟩]
  · intro h1 h2 h3
    unfold PredictCompletionTime
    rw [if_neg (by omega), if_neg (by omega), if_neg h3]

/-- C9 witness: the amended case analysis applied to concrete metrics, one
per branch, plus an extrapolation whose `int64` product wraps negative
(`timeSpent = 2^62` at progress 1: `99 · 2^62 ≡ -2^62 (mod 2^64)`). -/
theorem predictCompletionTime_cases_witness :
    PredictCompletionTime 7
      { zeroTaskMetrics with overallProgress := 100 } = (5, .alreadyCompleted)
    ∧ PredictCompletionTime 7 zeroTaskMetrics = (5, .allTasksCompleted)
    ∧ PredictCompletionTime 7
        { zeroTaskMetrics with
            totalTasks := 2
            completedTasks := 1
            overallProgress := 50
            phaseProgress := [{ phase := [], totalTasks := 2,
                                completedTasks := 1, progressPercent := 50,
                                timeSpent := 1000 }] } =
        (7 + 1000, .basedOnCurrentProgressRate 1000)
    ∧ PredictCompletionTime 7
        { zeroTaskMetrics with
            totalTasks := 2
            completedTasks := 1 } =
        (0, .insufficientData)
    ∧ PredictCompletionTime 7
        { zeroTaskMetrics with
            totalTasks := 2
            completedTasks := 1
            overallProgress := 1
            phaseProgress := [{ phase := [], totalTasks := 2,
                                completedTasks := 1, progressPercent := 1,
                                timeSpent := 4611686018427387904 }] } =
        (7 - 4611686018427387904,
         .basedOnCurrentProgressRate (-4611686018427387904)) := by
  refine ⟨?_, ?_, ?_, ?_, ?_⟩
  · exact (predictCompletionTime_cases 7 _).1 (by decide)
  · exact (predictCompletionTime_cases 7 _).2.1 (by decide) (by decide)
  · exact (predictCompletionTime_cases 7 _).2.2.1 (by decide) (by decide)
      (by decide) (by decide)
  · exact (predictCompletionTime_cases 7 _).2.2.2 (by decide) (by decide)
      (by decide)
  · exact (predictCompletionTime_cases 7 _).2.2.1 (by decide) (by decide)
      (by decide) (by decide)

/-! ### C10: ArchiveWorkItem. -/

theorem storeGet_map_replace (k : Str) (d : Dir) :
    ∀ s : List (Str × Dir), s.any (fun p => p.1 = k) = true →
    storeGet (s.map (fun p => if p.1 = k then (p.1, d) else p)) k = some d := by
  intro s
  induction s with
  | nil => intro h; cases h
  | cons a as ih =>
    intro hany
    by_cases hak : a.1 = k
    · rw [List.map_cons, if_pos hak]
      unfold storeGet
      rw [if_pos hak]
    · have htail : as.any (fun p => p.1 = k) = true := by
        simpa [hak] using hany
      rw [List.map_cons, if_neg hak]
      unfold storeGet
      rw [if_neg hak]
      exact ih htail

theorem storeGet_append_new (k : Str) (d : Dir) :
    ∀ s : List (Str × Dir), s.any (fun p => p.1 = k) = false →
    storeGet (s ++ [(k, d)]) k = some d := by
  intro s
  induction s with
  | nil => intro _; simp [storeGet]
  | cons a as ih =>
    intro hany
    simp only [List.any_cons, Bool.or_eq_false_iff,
      decide_eq_false_iff_not] at hany
    rw [List.cons_append]
    unfold storeGet
    rw [if_neg hany.1]
    exact ih (by simpa using hany.2)

theorem storeGet_setStore (s : List (Str × Dir)) (k : Str) (d : Dir) :
    storeGet (setStore s k d) k = some d := by
  unfold setStore
  split
  · next hany => exact storeGet_map_replace k d s hany
  · next hany =>
    exact storeGet_append_new k d s (by rwa [Bool.not_eq_true] at hany)

theorem mem_setFile {d : Dir} {fc : Str × Str} (fname content : Str)
    (hm : fc ∈ d) (hne : ¬ fc.1 = fname) : fc ∈ setFile d fname content := by
  unfold setFile
  split
  · have := List.mem_map_of_mem
      (fun p => if p.1 = fname then (p.1, content) else p) hm
    simpa [if_neg hne] using this
  · exact List.mem_append_left _ hm

/-- C10: `ArchiveWorkItem` never reads the item's document — its outcome is
the same for every directory contents `d`, hence for every status.  It
fails with the not-found `WorkItemError` exactly when the name is absent
from the backlog store; otherwise (the collaborator's create and move
succeeding) it succeeds, removing the directory from the backlog and
binding it whole in the completed store — with a `POSTMORTEM.md` added
when the postmortem generation succeeds, and every original file kept
either way — and a postmortem-generation failure (`pmFails`) still yields
`.ok`. -/
theorem archiveWorkItem_ignores_status (pmFails : Bool) (today : Str)
    (st : FSState) (name : Str) :
    (storeGet st.backlog name = none →
      ArchiveWorkItem pmFails today st name =
        .error (.workItemError "archive".toList name
          "work item not found in backlog".toList))
    ∧ (∀ d, storeGet st.backlog name = some d →
        ∃ st', ArchiveWorkItem pmFails today st name = .ok st'
          ∧ st'.backlog = st.backlog.filter (fun p => ¬ p.1 = name)
          ∧ (pmFails = true → storeGet st'.completed name = some d)
          ∧ (pmFails = false → storeGet st'.completed name =
              some (setFile d "POSTMORTEM.md".toList
                (postmortemTemplate name today)))
          ∧ (∀ fc ∈ d, fc.1 ≠ "POSTMORTEM.md".toList →
              ∃ dd, storeGet st'.completed name = some dd ∧ fc ∈ dd)) := by
  constructor
  · intro h
    unfold ArchiveWorkItem
    rw [h]
  · intro d h
    unfold ArchiveWorkItem
    rw [h]
    cases pmFails with
    | true =>
      refine ⟨_, rfl, rfl, ?_, ?_, ?_⟩
      · intro _
        exact storeGet_setStore _ _ _
      · intro hf
        exact absurd hf (by decide)
      · intro fc hm hne
        exact ⟨d, storeGet_setStore _ _ _, hm⟩
    | false =>
      refine ⟨_, rfl, rfl, ?_, ?_, ?_⟩
      · intro hf
        exact absurd hf (by decide)
      · intro _
        exact storeGet_setStore _ _ _
      · intro fc hm hne
        exact ⟨_, storeGet_setStore _ _ _, mem_setFile _ _ hm hne⟩



/-- C10 witness: archiving the PROPOSED item succeeds even though the
postmortem generation fails, and archiving a missing name fails. -/
theorem archiveWorkItem_ignores_status_witness :
    (∃ st', ArchiveWorkItem true [] proposedBacklog "feature-x".toList = .ok st'
      ∧ st'.backlog = proposedBacklog.backlog.filter
          (fun p => ¬ p.1 = "feature-x".toList)
      ∧ (true = true → storeGet st'.completed "feature-x".toList =
          some [("README.md".toList,
            "# Feature: x\n\n## Status: PROPOSED\n- [ ] task\n".toList)]))
    ∧ ArchiveWorkItem true [] proposedBacklog "feature-y".toList =
        .error (.workItemError "archive".toList "feature-y".toList
          "work item not found in backlog".toList) := by
  constructor
  · obtain ⟨st', h1, h2, h3, -⟩ :=
      (archiveWorkItem_ignores_status true [] proposedBacklog
        "feature-x".toList).2
        [("README.md".toList,
          "# Feature: x\n\n## Status: PROPOSED\n- [ ] task\n".toList)]
        (by decide)
    exact ⟨st', h1, h2, h3⟩
  · exact (archiveWorkItem_ignores_status true [] proposedBacklog
      "feature-y".toList).1 (by decide)

/-! ### C5: parsing is total over the contents, with defaults. -/

theorem parseLine_status_none {st : WorkItem × Str} {line : Str}
    (h : findFirst? (matchWordTokLabel false "Status:".toList) line = none) :
    (parseLine st line).1.status = st.1.status := by
  unfold parseLine
  rw [h]
  cases matchTitleHeading line <;>
    cases findFirst? (matchWordTokLabel false "Phase:".toList) line <;>
    cases findFirst? (matchProgressAt false) line <;>
    cases findFirst? (matchAssigneeAt false) line <;>
    cases findFirst? matchPhaseSectionAt line <;>
    cases matchTaskLine line <;>
    first
      | rfl
      | (dsimp only; repeat' split) <;> rfl

theorem parseLine_phase_none {st : WorkItem × Str} {line : Str}
    (h : findFirst? (matchWordTokLabel false "Phase:".toList) line = none) :
    (parseLine st line).1.phase = st.1.phase := by
  unfold parseLine
  rw [h]
  cases matchTitleHeading line <;>
    cases findFirst? (matchWordTokLabel false "Status:".toList) line <;>
    cases findFirst? (matchProgressAt false) line <;>
    cases findFirst? (matchAssigneeAt false) line <;>
    cases findFirst? matchPhaseSectionAt line <;>
    cases matchTaskLine line <;>
    first
      | rfl
      | (dsimp only; repeat' split) <;> rfl

theorem parseLine_progress_none {st : WorkItem × Str} {line : Str}
    (h : findFirst? (matchProgressAt false) line = none) :
    (parseLine st line).1.progress = st.1.progress := by
  unfold parseLine
  rw [h]
  cases matchTitleHeading line <;>
    cases findFirst? (matchWordTokLabel false "Status:".toList) line <;>
    cases findFirst? (matchWordTokLabel false "Phase:".toList) line <;>
    cases findFirst? (matchAssigneeAt false) line <;>
    cases findFirst? matchPhaseSectionAt line <;>
    cases matchTaskLine line <;>
    rfl

theorem parseLine_assignee_none {st : WorkItem × Str} {line : Str}
    (h : findFirst? (matchAssigneeAt false) line = none) :
    (parseLine st line).1.assignedTo = st.1.assignedTo := by
  unfold parseLine
  rw [h]
  cases matchTitleHeading line <;>
    cases findFirst? (matchWordTokLabel false "Status:".toList) line <;>
    cases findFirst? (matchWordTokLabel false "Phase:".toList) line <;>
    cases findFirst? (matchProgressAt false) line <;>
    cases findFirst? matchPhaseSectionAt line <;>
    cases matchTaskLine line <;>
    first
      | rfl
      | (dsimp only; repeat' split) <;> rfl

theorem foldl_parseLine_status (ls : List Str) :
    ∀ st, (∀ l ∈ ls, findFirst? (matchWordTokLabel false "Status:".toList) l = none) →
    ((ls.foldl parseLine st).1).status = st.1.status := by
  induction ls with
  | nil => intro st _; rfl
  | cons l ls ih =>
    intro st h
    rw [List.foldl_cons, ih _ (fun x hx => h x (List.mem_cons_of_mem _ hx)),
      parseLine_status_none (h l (List.mem_cons_self _ _))]

theorem foldl_parseLine_phase (ls : List Str) :
    ∀ st, (∀ l ∈ ls, findFirst? (matchWordTokLabel false "Phase:".toList) l = none) →
    ((ls.foldl parseLine st).1).phase = st.1.phase := by
  induction ls with
  | nil => intro st _; rfl
  | cons l ls ih =>
    intro st h
    rw [List.foldl_cons, ih _ (fun x hx => h x (List.mem_cons_of_mem _ hx)),
      parseLine_phase_none (h l (List.mem_cons_self _ _))]

theorem foldl_parseLine_progress (ls : List Str) :
    ∀ st, (∀ l ∈ ls, findFirst? (matchProgressAt false) l = none) →
    ((ls.foldl parseLine st).1).progress = st.1.progress := by
  induction ls with
  | nil => intro st _; rfl
  | cons l ls ih =>
    intro st h
    rw [List.foldl_cons, ih _ (fun x hx => h x (List.mem_cons_of_mem _ hx)),
      parseLine_progress_none (h l (List.mem_cons_self _ _))]

theorem foldl_parseLine_assignee (ls : List Str) :
    ∀ st, (∀ l ∈ ls, findFirst? (matchAssigneeAt false) l = none) →
    ((ls.foldl parseLine st).1).assignedTo = st.1.assignedTo := by
  induction ls with
  | nil => intro st _; rfl
  | cons l ls ih =>
    intro st h
    rw [List.foldl_cons, ih _ (fun x hx => h x (List.mem_cons_of_mem _ hx)),
      parseLine_assignee_none (h l (List.mem_cons_self _ _))]

theorem parseWorkItem_field_defaults (name path content : Str) :
    ((∀ l ∈ scanLines content,
        findFirst? (matchWordTokLabel false "Status:".toList) l = none) →
      (ParseWorkItem name path content).status = "UNKNOWN".toList)
    ∧ ((∀ l ∈ scanLines content,
        findFirst? (matchWordTokLabel false "Phase:".toList) l = none) →
      (ParseWorkItem name path content).phase = PhaseDiscovery)
    ∧ ((∀ l ∈ scanLines content,
        findFirst? (matchProgressAt false) l = none) →
      (ParseWorkItem name path content).progress = 0)
    ∧ ((∀ l ∈ scanLines content,
        findFirst? (matchAssigneeAt false) l = none) →
      (ParseWorkItem name path content).assignedTo = []) := by
  unfold ParseWorkItem
  refine ⟨fun h => ?_, fun h => ?_, fun h => ?_, fun h => ?_⟩ <;>
    (repeat' split) <;>
    simp only [] <;>
    first
      | exact foldl_parseLine_status _ _ h
      | exact foldl_parseLine_phase _ _ h
      | exact foldl_parseLine_progress _ _ h
      | exact foldl_parseLine_assignee _ _ h

/-- C5 counterexample: a readable document — the read step delivers `.ok` —
whose single line has `bufio.MaxScanTokenSize` bytes and no newline; the
parse nevertheless fails, with the scanner's `bufio.ErrTooLong`, so "an
error only when the underlying file cannot be read" is false of the
code. -/
theorem parseWorkItemRead_err_too_long :
    ParseWorkItemRead "x".toList [] (.ok longLineDoc) =
      .error "bufio.Scanner: token too long".toList
    ∧ longLineDoc.length = maxScanTokenSize := by
  constructor
  · have hnl : '\n' ∉ longLineDoc := by
      intro hm
      simp only [longLineDoc, List.mem_replicate] at hm
      exact absurd hm.2 (by decide)
    have h2 : splitOnNl longLineDoc = [longLineDoc] := splitOnNl_no_nl _ hnl
    have h3 : longLineDoc.length = maxScanTokenSize := by
      simp [longLineDoc]
    unfold ParseWorkItemRead
    dsimp only
    rw [h2, if_neg (by simp [h3])]
  · simp [longLineDoc]

/-- C5 (amended): parsing is total over the contents of every readable
document whose lines are under the scanner's 64 KiB token limit, and the
read error and `bufio.ErrTooLong` are the only errors: the parse fails on
`.ok` contents exactly when some line reaches `bufio.MaxScanTokenSize`
bytes; under that limit it succeeds, and when the status / phase /
progress / assignee patterns match on no line — missing or malformed
metadata — the parsed item keeps the defaults: status `"UNKNOWN"`, phase
discovery, progress 0, empty assignee. -/
theorem parseWorkItem_total_with_defaults (name path content : Str) :
    ((∀ l ∈ splitOnNl content, l.length < maxScanTokenSize) →
      ParseWorkItemRead name path (.ok content) =
        .ok (ParseWorkItem name path content))
    ∧ (ParseWorkItemRead name path (.ok content) =
          .error "bufio.Scanner: token too long".toList ↔
        ∃ l ∈ splitOnNl content, maxScanTokenSize ≤ l.length)
    ∧ (∀ e, ParseWorkItemRead name path (.error e) = .error e)
    ∧ ((∀ l ∈ scanLines content,
        findFirst? (matchWordTokLabel false "Status:".toList) l = none) →
      (ParseWorkItem name path content).status = "UNKNOWN".toList)
    ∧ ((∀ l ∈ scanLines content,
        findFirst? (matchWordTokLabel false "Phase:".toList) l = none) →
      (ParseWorkItem name path content).phase = PhaseDiscovery)
    ∧ ((∀ l ∈ scanLines content,
        findFirst? (matchProgressAt false) l = none) →
      (ParseWorkItem name path content).progress = 0)
    ∧ ((∀ l ∈ scanLines content,
        findFirst? (matchAssigneeAt false) l = none) →
      (ParseWorkItem name path content).assignedTo = []) := by
  obtain ⟨h1, h2, h3, h4⟩ := parseWorkItem_field_defaults name path content
  refine ⟨?_, ?_, fun e => rfl, h1, h2, h3, h4⟩
  · intro hall
    unfold ParseWorkItemRead
    dsimp only
    rw [if_pos (List.all_eq_true.mpr (fun l hl => by simpa using hall l hl))]
  · unfold ParseWorkItemRead
    dsimp only
    constructor
    · intro he
      by_cases hall : (splitOnNl content).all
          (fun l => l.length < maxScanTokenSize) = true
      · rw [if_pos hall] at he
        cases he
      · rw [List.all_eq_true] at hall
        push_neg at hall
        obtain ⟨l, hl, hp⟩ := hall
        refine ⟨l, hl, ?_⟩
        simp at hp
        omega
    · rintro ⟨l, hl, hlen⟩
      rw [if_neg (fun hall => by
        have := List.all_eq_true.mp hall l hl
        simp at this
        omega)]

/-- C5 witness: a document with short lines and no metadata lines at all
parses without error, with the sentinel status "UNKNOWN" and the other
defaults. -/
theorem parseWorkItem_total_with_defaults_witness :
    ParseWorkItemRead "x".toList [] (.ok "hello\nworld\n".toList) =
      .ok (ParseWorkItem "x".toList [] "hello\nworld\n".toList)
    ∧ (ParseWorkItem "x".toList [] "hello\nworld\n".toList).status =
      "UNKNOWN".toList
    ∧ (ParseWorkItem "x".toList [] "hello\nworld\n".toList).phase =
      PhaseDiscovery
    ∧ (ParseWorkItem "x".toList [] "hello\nworld\n".toList).progress = 0
    ∧ (ParseWorkItem "x".toList [] "hello\nworld\n".toList).assignedTo = [] := by
  obtain ⟨h0, -, -, h1, h2, h3, h4⟩ :=
    parseWorkItem_total_with_defaults "x".toList [] "hello\nworld\n".toList
  exact ⟨h0 (by decide), h1 (by decide), h2 (by decide), h3 (by decide),
    h4 (by decide)⟩

/-! ### C4: frame effect of the four single-field updaters. -/



/-- C4 counterexample: `UpdateStatus` rewrites every occurrence of the
status pattern, including one inside body prose — line 4 of `proseDoc`
(prose, not a metadata line) is not bit-identical after the call. -/
theorem updateStatus_rewrites_prose :
    StatusUpdater.UpdateStatus proseDoc StatusCompleted =
      ("# Feature: x\n\n## Status: COMPLETED\n\n" ++
        "See ## Status: COMPLETED for history.\n").toList
    ∧ (splitOnNl proseDoc).getD 4 [] =
        "See ## Status: OLD for history.".toList
    ∧ (splitOnNl (StatusUpdater.UpdateStatus proseDoc StatusCompleted)).getD 4 []
        ≠ (splitOnNl proseDoc).getD 4 [] := by
  refine ⟨by decide, by decide, by decide⟩

/-- C4 (amended): each single-field updater rewrites exactly the spans of
text matching its own field's pattern.  When the pattern matches at one
position only, the call changes nothing but that span: every character
before and after it — all other metadata fields and all surrounding prose
— is bit-identical, and the span itself keeps its label part (`g1`) with
only the field value replaced.  (A document whose prose also matches the
pattern, as in the counterexample, is rewritten at every match.) -/
theorem updaters_change_only_their_field (content newStatus assignee phase :
    Str) (progress : Int) :
    (∀ (i : Nat) (h : RegexHit),
      matchWordTokLabel true "Status:".toList (content.drop i) = some h →
      (∀ j, j < content.length → j ≠ i →
        matchWordTokLabel true "Status:".toList (content.drop j) = none) →
      StatusUpdater.UpdateStatus content newStatus =
        content.take i ++ (h.g1 ++ newStatus) ++ content.drop (i + h.len))
    ∧ (∀ (i : Nat) (h : RegexHit),
      matchProgressAt true (content.drop i) = some h →
      (∀ j, j < content.length → j ≠ i →
        matchProgressAt true (content.drop j) = none) →
      StatusUpdater.UpdateProgress content progress =
        content.take i ++ (h.g1 ++ intToStr progress ++ ['%']) ++
          content.drop (i + h.len))
    ∧ (∀ (i : Nat) (h : RegexHit),
      matchAssigneeAt true (content.drop i) = some h →
      (∀ j, j < content.length → j ≠ i →
        matchAssigneeAt true (content.drop j) = none) →
      StatusUpdater.UpdateAssignee content assignee =
        content.take i ++ (h.g1 ++ assignee) ++ content.drop (i + h.len))
    ∧ (∀ (i : Nat) (h : RegexHit),
      matchWordTokLabel true "Phase:".toList (content.drop i) = some h →
      (∀ j, j < content.length → j ≠ i →
        matchWordTokLabel true "Phase:".toList (content.drop j) = none) →
      StatusUpdater.UpdatePhase content phase =
        content.take i ++ (h.g1 ++ phase) ++ content.drop (i + h.len)) := by
  refine ⟨?_, ?_, ?_, ?_⟩
  · intro i h hi honly
    obtain ⟨hsound, hlen, -⟩ := matchWordTokLabel_sound hi
    unfold StatusUpdater.UpdateStatus
    rw [if_pos (hasMatch_of_matchAt hi)]
    exact replaceAll_unique hi hsound hlen (by decide) honly
  · intro i h hi honly
    obtain ⟨hsound, hlen⟩ := matchProgressAt_sound hi
    unfold StatusUpdater.UpdateProgress
    rw [if_pos (hasMatch_of_matchAt hi)]
    exact replaceAll_unique hi hsound hlen (by decide) honly
  · intro i h hi honly
    obtain ⟨hsound, hlen, -⟩ := matchAssigneeAt_sound hi
    unfold StatusUpdater.UpdateAssignee
    rw [if_pos (hasMatch_of_matchAt hi)]
    exact replaceAll_unique hi hsound hlen (by decide) honly
  · intro i h hi honly
    obtain ⟨hsound, hlen, -⟩ := matchWordTokLabel_sound hi
    unfold StatusUpdater.UpdatePhase
    rw [if_pos (hasMatch_of_matchAt hi)]
    exact replaceAll_unique hi hsound hlen (by decide) honly

/-- C4 witness: each updater applied to a two-line document whose field
line is its only match; only that field's value changes. -/
theorem updaters_change_only_their_field_witness :
    StatusUpdater.UpdateStatus "## Status: OLD\nbody\n".toList StatusCompleted =
      "## Status: COMPLETED\nbody\n".toList
    ∧ StatusUpdater.UpdateProgress "## Progress: 0%\nbody\n".toList 66 =
      "## Progress: 66%\nbody\n".toList
    ∧ StatusUpdater.UpdateAssignee "## Assigned To: human\nbody\n".toList
        "agent".toList = "## Assigned To: agent\nbody\n".toList
    ∧ StatusUpdater.UpdatePhase "## Phase: discovery\nbody\n".toList
        PhaseExecution = "## Phase: execution\nbody\n".toList := by
  refine ⟨?_, ?_, ?_, ?_⟩
  · rw [(updaters_change_only_their_field "## Status: OLD\nbody\n".toList
      StatusCompleted [] [] 0).1 0
      ⟨"## Status: ".toList, "OLD".toList, []⟩ (by decide) (by decide)]
    decide
  · rw [(updaters_change_only_their_field "## Progress: 0%\nbody\n".toList
      [] [] [] 66).2.1 0
      ⟨"## Progress: ".toList, "0".toList, ['%']⟩ (by decide) (by decide)]
    decide
  · rw [(updaters_change_only_their_field "## Assigned To: human\nbody\n".toList
      [] "agent".toList [] 0).2.2.1 0
      ⟨"## Assigned To: ".toList, "human".toList, []⟩ (by decide) (by decide)]
    decide
  · rw [(updaters_change_only_their_field "## Phase: discovery\nbody\n".toList
      [] [] PhaseExecution 0).2.2.2 0
      ⟨"## Phase: ".toList, "discovery".toList, []⟩ (by decide) (by decide)]
    decide

/-! ### C8: UpdateStatus — replace or insert. -/



/-- C8 counterexample: `lateHeadingDoc` has no status line and its first
heading sits on line 2; the claim requires a status line to be inserted
directly after that heading, but `UpdateStatus` checks only whether the
*first* line starts with `#` (filesystem.go 334) and returns the document
unchanged. -/
theorem updateStatus_no_insert_late_heading :
    StatusUpdater.UpdateStatus lateHeadingDoc StatusProposed = lateHeadingDoc
    ∧ hasMatch (matchWordTokLabel true "Status:".toList) lateHeadingDoc = false
    ∧ (splitOnNl lateHeadingDoc).any (fun l => l.head? = some '#') = true := by
  refine ⟨by decide, by decide, by decide⟩

/-- C8 (amended): `UpdateStatus` replaces the token of the status pattern
where it matches (shown here for a pattern matching at exactly one
position: precisely that span is rewritten); when the pattern matches
nowhere, a status line (preceded by a blank line) is inserted directly
after the *first line* provided that line starts with `#`; otherwise —
first line not a heading — the document is returned unchanged, even if a
heading exists further down. -/
theorem updateStatus_replace_or_insert (content newStatus : Str) :
    (∀ (i : Nat) (h : RegexHit),
      matchWordTokLabel true "Status:".toList (content.drop i) = some h →
      (∀ j, j < content.length → j ≠ i →
        matchWordTokLabel true "Status:".toList (content.drop j) = none) →
      StatusUpdater.UpdateStatus content newStatus =
        content.take i ++ (h.g1 ++ newStatus) ++ content.drop (i + h.len))
    ∧ (hasMatch (matchWordTokLabel true "Status:".toList) content = false →
      content.head? = some '#' →
      StatusUpdater.UpdateStatus content newStatus =
        content.takeWhile (fun c => ¬ c = '\n') ++
          "\n\n## Status: ".toList ++ newStatus ++
          content.dropWhile (fun c => ¬ c = '\n'))
    ∧ (hasMatch (matchWordTokLabel true "Status:".toList) content = false →
      content.head? ≠ some '#' →
      StatusUpdater.UpdateStatus content newStatus = content) := by
  refine ⟨?_, ?_, ?_⟩
  · intro i h hi honly
    obtain ⟨hsound, hlen, -⟩ := matchWordTokLabel_sound hi
    unfold StatusUpdater.UpdateStatus
    rw [if_pos (hasMatch_of_matchAt hi)]
    exact replaceAll_unique hi hsound hlen (by decide) honly
  · intro hno hhead
    unfold StatusUpdater.UpdateStatus
    rw [if_neg (by rw [hno]; exact Bool.false_ne_true)]
    cases hsplit : splitOnNl content with
    | nil => exact absurd hsplit (splitOnNl_ne_nil content)
    | cons l0 rest =>
      have hl0 : l0 = content.takeWhile (fun c => ¬ c = '\n') := by
        have := splitOnNl_head content
        rw [hsplit] at this
        simpa using this
      have hl0head : l0.head? = some '#' := by
        rw [hl0]
        exact (head?_takeWhile_not_nl content '#' (by decide)).mpr hhead
      dsimp only
      rw [if_pos hl0head]
      have htail := splitOnNl_tail content l0 rest hsplit
      rw [joinNl_cons_cons, hl0]
      cases rest with
      | nil =>
        rw [if_pos rfl] at htail
        show _ ++ '\n' :: ('\n' :: ("## Status: ".toList ++ newStatus)) = _
        rw [htail]
        simp
      | cons r rs =>
        rw [if_neg (by simp)] at htail
        rw [joinNl_cons_cons, ← htail]
        simp
  · intro hno hhead
    unfold StatusUpdater.UpdateStatus
    rw [if_neg (by rw [hno]; exact Bool.false_ne_true)]
    cases hsplit : splitOnNl content with
    | nil => rfl
    | cons l0 rest =>
      have hl0 : l0 = content.takeWhile (fun c => ¬ c = '\n') := by
        have := splitOnNl_head content
        rw [hsplit] at this
        simpa using this
      dsimp only
      rw [if_neg ?hne]
      case hne =>
        rw [hl0]
        intro hcon
        exact hhead ((head?_takeWhile_not_nl content '#' (by decide)).mp hcon)

/-- C8 witness: the amended behavior on three concrete documents — token
replacement, insertion after a leading heading, and the unchanged case. -/
theorem updateStatus_replace_or_insert_witness :
    StatusUpdater.UpdateStatus "## Status: OLD\nbody\n".toList
        StatusInProgressPlanning = "## Status: IN_PROGRESS_PLANNING\nbody\n".toList
    ∧ StatusUpdater.UpdateStatus "# Title\nbody\n".toList StatusProposed =
        "# Title\n\n## Status: PROPOSED\nbody\n".toList
    ∧ StatusUpdater.UpdateStatus "plain text\n".toList StatusProposed =
        "plain text\n".toList := by
  refine ⟨?_, ?_, ?_⟩
  · rw [(updateStatus_replace_or_insert "## Status: OLD\nbody\n".toList
      StatusInProgressPlanning).1 0
      ⟨"## Status: ".toList, "OLD".toList, []⟩ (by decide) (by decide)]
    decide
  · rw [(updateStatus_replace_or_insert "# Title\nbody\n".toList
      StatusProposed).2.1 (by decide) (by decide)]
    decide
  · exact (updateStatus_replace_or_insert "plain text\n".toList
      StatusProposed).2.2 (by decide) (by decide)

/-- C3 (amended): `WorkItemService.CompleteTask` rejects with a
`ValidationError` exactly when the phase-local index is outside `[0, N)`
for `N` the number of parsed tasks of the item's current phase.  In range,
the index is translated to the global position `g` of the `taskId`-th
phase-matching task among all parsed tasks in document order, and the call
persists the progress-recompute of the flip of the `g`-th line matching
the updater's relaxed checkbox prefix pattern `^\s*-\s*\[([ x])\]` — a
line set that also contains description-less checkbox lines the task
parser skips, so the flipped line is the requested task's line only when
every checkbox line is a full task line (last clause); the recomputed
progress likewise counts checkbox lines, not parsed tasks. -/
theorem completeTask_phase_index_translation
    (name path content : Str) (taskId : Int) :
    ((taskId < 0 ∨ taskId ≥ (((ParseWorkItem name path content).tasks.filter
        (fun t => t.phase = (ParseWorkItem name path content).phase)).length : Int)) ↔
      ∃ e, WorkItemService.CompleteTask name path content taskId =
          .error e ∧ e.isValidationError = true)
    ∧ (0 ≤ taskId →
       taskId < (((ParseWorkItem name path content).tasks.filter
         (fun t => t.phase = (ParseWorkItem name path content).phase)).length : Int) →
       ∃ g : Nat,
         WorkItemService.findGlobalTaskId (ParseWorkItem name path content).tasks
             (ParseWorkItem name path content).phase taskId 0 = (g : Int)
         ∧ (((ParseWorkItem name path content).tasks.take g).filter
              (fun t => t.phase = (ParseWorkItem name path content).phase)).length
             = taskId.toNat
         ∧ (∃ t, (ParseWorkItem name path content).tasks.get? g = some t
             ∧ t.phase = (ParseWorkItem name path content).phase)
         ∧ WorkItemService.CompleteTask name path content taskId =
             .ok (WorkItemService.updateProgressFromTasks
                   (StatusUpdater.CompleteTask content (g : Int))))
    ∧ (∀ g L : Nat, (boxIdxs (splitOnNl content)).get? g = some L →
         StatusUpdater.CompleteTask content (g : Int) =
           joinNl ((splitOnNl content).set L
             (StatusUpdater.completeTaskLine ((splitOnNl content).getD L []))))
    ∧ ('\r' ∉ content →
       (∀ l ∈ splitOnNl content, (StatusUpdater.lineTaskBox l).isSome = true →
         (matchTaskLine l).isSome = true) →
       ∀ g : Nat, g < (ParseWorkItem name path content).tasks.length →
       ∃ L : Nat, (boxIdxs (splitOnNl content)).get? g = some L ∧
         ∃ pr, matchTaskLine ((splitOnNl content).getD L []) = some pr ∧
           ∃ t, (ParseWorkItem name path content).tasks.get? g = some t ∧
             t.completed = decide (pr.1 = 'x') ∧
             t.description = trimSpace pr.2) := by
  refine ⟨⟨fun hrange => ?_, fun hex => ?_⟩, fun h0 h1 => ?_, fun g L hgl => ?_,
    fun hcr hbt g hlt => ?_⟩
  · simp only [WorkItemService.CompleteTask]
    rw [if_pos hrange]
    exact ⟨_, rfl, rfl⟩
  · by_contra hnr
    push_neg at hnr
    obtain ⟨hn0, hn1⟩ := hnr
    obtain ⟨g, hg, -, -⟩ := findGlobalTaskId_spec
      (ParseWorkItem name path content).tasks
      (ParseWorkItem name path content).phase taskId 0 hn0 hn1
    rw [zero_add] at hg
    obtain ⟨e, he, -⟩ := hex
    simp only [WorkItemService.CompleteTask] at he
    rw [if_neg (by push_neg; exact ⟨hn0, hn1⟩), hg, if_neg (by omega)] at he
    cases he
  · obtain ⟨g, hg, hcount, hex⟩ := findGlobalTaskId_spec
      (ParseWorkItem name path content).tasks
      (ParseWorkItem name path content).phase taskId 0 h0 h1
    rw [zero_add] at hg
    refine ⟨g, hg, hcount, hex, ?_⟩
    simp only [WorkItemService.CompleteTask]
    rw [if_neg (by push_neg; exact ⟨h0, h1⟩), hg, if_neg (by omega)]
  · unfold StatusUpdater.CompleteTask
    rw [completeTaskLoop_set (splitOnNl content) g L hgl]
  · have hsp := scanLines_splitOnNl hcr
    have hfm : (scanLines content).filterMap matchTaskLine =
        (splitOnNl content).filterMap matchTaskLine := by
      cases hsp with
      | inl h => rw [h]
      | inr h => rw [h, filterMap_matchTaskLine_append_nil]
    have hmap := parseWorkItem_tasks_map name path content
    have hlen : (ParseWorkItem name path content).tasks.length =
        ((splitOnNl content).filterMap matchTaskLine).length := by
      have h2 := congrArg List.length hmap
      simpa [hfm] using h2
    have hbt' : boxIdxs (splitOnNl content) = taskIdxs (splitOnNl content) :=
      boxIdxs_eq_taskIdxs _ hbt
    have hglen : g < (boxIdxs (splitOnNl content)).length := by
      rw [hbt', taskIdxs_length]
      omega
    obtain ⟨L, hL⟩ : ∃ L, (boxIdxs (splitOnNl content)).get? g = some L := by
      cases hq : (boxIdxs (splitOnNl content)).get? g with
      | none =>
        rw [List.get?_eq_none] at hq
        omega
      | some L => exact ⟨L, rfl⟩
    refine ⟨L, hL, ?_⟩
    have hLt : (taskIdxs (splitOnNl content)).get? g = some L := by
      rw [← hbt']
      exact hL
    obtain ⟨pr, hpr, hget⟩ := taskIdxs_get _ g L hLt
    refine ⟨pr, hpr, ?_⟩
    obtain ⟨t, ht⟩ :
        ∃ t, (ParseWorkItem name path content).tasks.get? g = some t := by
      cases hq : (ParseWorkItem name path content).tasks.get? g with
      | none =>
        rw [List.get?_eq_none] at hq
        omega
      | some t => exact ⟨t, rfl⟩
    refine ⟨t, ht, ?_⟩
    have hm2 := congrArg (fun l => l.get? g) hmap
    dsimp only at hm2
    rw [List.get?_map, List.get?_map, ht, hfm, hget] at hm2
    simp only [Option.map_some'] at hm2
    have hp2 := Option.some_inj.mp hm2
    exact ⟨congrArg Prod.fst hp2, congrArg Prod.snd hp2⟩

/-- C3's counterexample to the claim as stated: on `doc3` the only task of
the current phase is `- [ ] real task` (the bare `- [ ]` line has no
description, so the parser skips it), yet `CompleteTask 0` flips the bare
checkbox line instead — the requested task is still unchecked afterwards —
and persists progress 50 (the bare checkbox counts), where the claimed
`⌊100·completed/total⌋` over the parsed tasks would be 0. -/
theorem completeTask_flips_bare_checkbox :
    WorkItemService.CompleteTask "w".toList [] doc3 0 = .ok doc3out
    ∧ ((ParseWorkItem "w".toList [] doc3).tasks.filter
        (fun t => t.phase = (ParseWorkItem "w".toList [] doc3).phase)).map
        (fun t => (t.completed, t.description)) = [(false, "real task".toList)]
    ∧ (ParseWorkItem "w".toList [] doc3out).tasks.map (fun t => t.completed)
        = [false]
    ∧ (ParseWorkItem "w".toList [] doc3out).progress = 50 :=
  ⟨rfl, by decide, by decide, by decide⟩

/-- C3 witness: on the well-formed `doc3w`, index 0 of the discovery phase
translates to global position 0, whose checkbox line is line 4; the call
persists the flip of that line with recomputed progress. -/
theorem completeTask_phase_index_translation_witness :
    WorkItemService.CompleteTask "w".toList [] doc3w 0 = .ok doc3wOut
    ∧ StatusUpdater.CompleteTask doc3w ((0 : Nat) : Int) =
        joinNl ((splitOnNl doc3w).set 4
          (StatusUpdater.completeTaskLine ((splitOnNl doc3w).getD 4 [])))
    ∧ (∃ L, (boxIdxs (splitOnNl doc3w)).get? 0 = some L ∧
        ∃ pr, matchTaskLine ((splitOnNl doc3w).getD L []) = some pr ∧
          ∃ t, (ParseWorkItem "w".toList [] doc3w).tasks.get? 0 = some t ∧
            t.completed = decide (pr.1 = 'x') ∧
            t.description = trimSpace pr.2) := by
  obtain ⟨hiff, hmain, hset, hcorr⟩ :=
    completeTask_phase_index_translation "w".toList [] doc3w 0
  refine ⟨?_, hset 0 4 (by decide), hcorr (by decide) (by decide) 0 (by decide)⟩
  obtain ⟨g, hg, -, -, hok⟩ := hmain (by decide) (by decide)
  have h0 : WorkItemService.findGlobalTaskId
      (ParseWorkItem "w".toList [] doc3w).tasks
      (ParseWorkItem "w".toList [] doc3w).phase 0 0 = 0 := by decide
  have hg0 : g = 0 := by
    have h2 : ((g : Nat) : Int) = 0 := hg.symm.trans h0
    exact_mod_cast h2
  subst hg0
  rw [hok]
  rfl

/-- C7 (amended): completing an already-checked task leaves every line of
the document unchanged by the flip step — the call returns exactly the
progress-recompute of the original contents; the persisted document equals
the original bit-for-bit when the document's progress tokens already read
the recomputed value. -/
theorem completeTask_checked_idempotent
    (name path content : Str) (taskId : Int) (g : Nat)
    (h0 : 0 ≤ taskId)
    (h1 : taskId < (((ParseWorkItem name path content).tasks.filter
        (fun t => t.phase = (ParseWorkItem name path content).phase)).length : Int))
    (hg : WorkItemService.findGlobalTaskId (ParseWorkItem name path content).tasks
        (ParseWorkItem name path content).phase taskId 0 = (g : Int))
    (hx : ((boxIdxs (splitOnNl content)).get? g).all
        (fun L => StatusUpdater.lineTaskBox ((splitOnNl content).getD L [])
          = some 'x') = true) :
    WorkItemService.CompleteTask name path content taskId =
      .ok (WorkItemService.updateProgressFromTasks content)
    ∧ ((∀ s ∈ content.tails,
          ((matchProgressAt true s).all (fun h => h.tok =
            intToStr (if (ParseTaskList content).1 > 0
              then ((((ParseTaskList content).2 * 100) /
                (ParseTaskList content).1 : Nat) : Int)
              else 0))) = true) →
        hasMatch (matchProgressAt true) content = true →
        WorkItemService.CompleteTask name path content taskId = .ok content) := by
  have hflip : StatusUpdater.CompleteTask content (g : Int) = content := by
    unfold StatusUpdater.CompleteTask
    rw [completeTaskLoop_id_of_x hx, joinNl_splitOnNl]
  have hmain : WorkItemService.CompleteTask name path content taskId =
      .ok (WorkItemService.updateProgressFromTasks content) := by
    simp only [WorkItemService.CompleteTask]
    rw [if_neg (by push_neg; exact ⟨h0, h1⟩), hg, if_neg (by omega), hflip]
  refine ⟨hmain, fun htok hmatch => ?_⟩
  rw [hmain]
  have hid : WorkItemService.updateProgressFromTasks content = content := by
    simp only [WorkItemService.updateProgressFromTasks]
    exact updateProgress_id hmatch htok
  rw [hid]

/-- C7's counterexample to the claim as stated: `doc7`'s only task is
already checked and `CompleteTask 0` accepts it, but the persisted
document is not the original — the progress recompute rewrites
`## Progress: 0%` to `## Progress: 100%`. -/
theorem completeTask_rewrites_progress_line :
    WorkItemService.CompleteTask "w".toList [] doc7 0 = .ok doc7out
    ∧ ((ParseWorkItem "w".toList [] doc7).tasks.filter
        (fun t => t.phase = (ParseWorkItem "w".toList [] doc7).phase)).map
        (fun t => t.completed) = [true]
    ∧ doc7out ≠ doc7 :=
  ⟨rfl, by decide, by decide⟩

/-- C7 witness: on `doc7w`, whose stored progress already equals the
recomputed value, completing the already-checked task 0 returns the
document unchanged. -/
theorem completeTask_checked_idempotent_witness :
    WorkItemService.CompleteTask "w".toList [] doc7w 0 = .ok doc7w := by
  obtain ⟨-, h2⟩ := completeTask_checked_idempotent "w".toList [] doc7w 0 0
    (by decide) (by decide) (by decide) (by decide)
  exact h2 (by decide) (by decide)


end GoPm
